import Mathlib

/-!
Verification development for the `dtbiz` flattened-devicetree (DTB) decoder.

The source program (`dtbiz.py`) is shallowly embedded below.  Byte buffers
are modelled as `List Nat` (Python `bytes` guarantees each element `< 256`;
theorems that need that bound take it as a hypothesis).  Strings that the
source produces by `bytes.decode()` are kept as raw byte lists; the UTF-8
decoding step itself (whose failure the spec calls `InvalidStringEncoding`,
outside the claims treated here) is not modelled.  Python generators are
modelled as functions returning the list of yielded items together with an
optional error describing the exception, if any, that ends the generator.
-/

namespace Dtbiz

/-- Big-endian unsigned value of a byte list, as computed by Python's
`int.from_bytes(buf)` (big-endian default). -/
def fromBytesBE (l : List Nat) : Nat := l.foldl (fun a b => a * 256 + b) 0

/-- Python slice `buf[i:j]` for natural `i ≤ j` (the only slice shapes the
source uses with both ends given). -/
def slice (buf : List Nat) (i j : Nat) : List Nat := (buf.drop i).take (j - i)

/-- Embeds `read_uint32` (`dtbiz.py` lines 42-48): the shift-and-add of the
first four bytes.  `none` models the `IndexError` raised when fewer than four
bytes are available; the source's `assert ret == int.from_bytes(buf[:4])` is
modelled as a guard returning `none` when it would fail. -/
def read_uint32 (buf : List Nat) : Option Nat :=
  match buf with
  | b0 :: b1 :: b2 :: b3 :: _ =>
    let ret := b0 * 2 ^ 24 + b1 * 2 ^ 16 + b2 * 2 ^ 8 + b3
    if ret = fromBytesBE (buf.take 4) then some ret else none
  | _ => none

/-- Embeds `read_uint64` (`dtbiz.py` lines 51-63), analogously to
`read_uint32`. -/
def read_uint64 (buf : List Nat) : Option Nat :=
  match buf with
  | b0 :: b1 :: b2 :: b3 :: b4 :: b5 :: b6 :: b7 :: _ =>
    let ret := b0 * 2 ^ 56 + b1 * 2 ^ 48 + b2 * 2 ^ 40 + b3 * 2 ^ 32 +
      b4 * 2 ^ 24 + b5 * 2 ^ 16 + b6 * 2 ^ 8 + b7
    if ret = fromBytesBE (buf.take 8) then some ret else none
  | _ => none

lemma foldl_be_shift (l : List Nat) :
    ∀ a, l.foldl (fun x b => x * 256 + b) a =
      a * 256 ^ l.length + l.foldl (fun x b => x * 256 + b) 0 := by
  induction l with
  | nil => intro a; simp
  | cons b t ih =>
    intro a
    simp only [List.foldl_cons, List.length_cons]
    rw [ih (a * 256 + b), ih (0 * 256 + b)]
    ring

lemma fromBytesBE_lt (l : List Nat) (hb : ∀ b ∈ l, b < 256) :
    fromBytesBE l < 256 ^ l.length := by
  induction l with
  | nil => simp [fromBytesBE]
  | cons b t ih =>
    have hbb : b < 256 := hb b (by simp)
    have ht := ih (fun x hx => hb x (by simp [hx]))
    show (b :: t).foldl (fun x c => x * 256 + c) 0 < 256 ^ (b :: t).length
    simp only [List.foldl_cons, List.length_cons]
    rw [foldl_be_shift t (0 * 256 + b)]
    have hft : t.foldl (fun x c => x * 256 + c) 0 < 256 ^ t.length := ht
    have h1 : (0 * 256 + b) * 256 ^ t.length + t.foldl (fun x c => x * 256 + c) 0
        < (b + 1) * 256 ^ t.length := by
      have := Nat.pos_pow_of_pos (n := 256) t.length (by norm_num)
      nlinarith
    have h2 : (b + 1) * 256 ^ t.length ≤ 256 * 256 ^ t.length :=
      Nat.mul_le_mul_right _ hbb
    calc (0 * 256 + b) * 256 ^ t.length + t.foldl (fun x c => x * 256 + c) 0
        < (b + 1) * 256 ^ t.length := h1
      _ ≤ 256 * 256 ^ t.length := h2
      _ = 256 ^ (t.length + 1) := by ring

lemma be4 (b0 b1 b2 b3 : Nat) (r : List Nat) :
    fromBytesBE ((b0 :: b1 :: b2 :: b3 :: r).take 4) =
      b0 * 2 ^ 24 + b1 * 2 ^ 16 + b2 * 2 ^ 8 + b3 := by
  simp [fromBytesBE]
  ring

lemma be8 (b0 b1 b2 b3 b4 b5 b6 b7 : Nat) (r : List Nat) :
    fromBytesBE ((b0 :: b1 :: b2 :: b3 :: b4 :: b5 :: b6 :: b7 :: r).take 8) =
      b0 * 2 ^ 56 + b1 * 2 ^ 48 + b2 * 2 ^ 40 + b3 * 2 ^ 32 +
      b4 * 2 ^ 24 + b5 * 2 ^ 16 + b6 * 2 ^ 8 + b7 := by
  simp [fromBytesBE]
  ring

lemma read_uint32_of_length (buf : List Nat) (h : 4 ≤ buf.length) :
    read_uint32 buf = some (fromBytesBE (buf.take 4)) := by
  rcases buf with _ | ⟨b0, _ | ⟨b1, _ | ⟨b2, _ | ⟨b3, rest⟩⟩⟩⟩
  · simp at h
  · simp at h
  · simp at h
  · simp at h
  · simp only [read_uint32]
    rw [be4, if_pos rfl]

lemma read_uint32_none (buf : List Nat) (h : buf.length < 4) :
    read_uint32 buf = none := by
  rcases buf with _ | ⟨b0, _ | ⟨b1, _ | ⟨b2, _ | ⟨b3, rest⟩⟩⟩⟩
  · rfl
  · rfl
  · rfl
  · rfl
  · simp at h; omega

lemma read_uint64_of_length (buf : List Nat) (h : 8 ≤ buf.length) :
    read_uint64 buf = some (fromBytesBE (buf.take 8)) := by
  rcases buf with _ | ⟨b0, _ | ⟨b1, _ | ⟨b2, _ | ⟨b3, _ | ⟨b4, _ | ⟨b5, _ | ⟨b6, _ | ⟨b7, rest⟩⟩⟩⟩⟩⟩⟩⟩
  · simp at h
  · simp at h
  · simp at h
  · simp at h
  · simp at h
  · simp at h
  · simp at h
  · simp at h
  · simp only [read_uint64]
    rw [be8, if_pos rfl]

/-- C9: on any buffer holding at least 4 (resp. 8) bytes, `read_uint32`
(resp. `read_uint64`) succeeds — its internal assertion against the reference
big-endian conversion holds, even when the most significant bit of the first
byte is set — and returns the big-endian value of the first 4 (resp. 8)
bytes, which is below `2^32` (resp. `2^64`) whenever those bytes are genuine
bytes (`< 256`). -/
theorem read_uint_correct (buf : List Nat) :
    (4 ≤ buf.length →
      read_uint32 buf = some (fromBytesBE (buf.take 4)) ∧
      ((∀ b ∈ buf.take 4, b < 256) → fromBytesBE (buf.take 4) < 2 ^ 32)) ∧
    (8 ≤ buf.length →
      read_uint64 buf = some (fromBytesBE (buf.take 8)) ∧
      ((∀ b ∈ buf.take 8, b < 256) → fromBytesBE (buf.take 8) < 2 ^ 64)) := by
  constructor
  · intro h
    refine ⟨read_uint32_of_length buf h, fun hb => ?_⟩
    have := fromBytesBE_lt (buf.take 4) hb
    have hlen : (buf.take 4).length = 4 := by
      simp [List.length_take]; omega
    rw [hlen] at this
    calc fromBytesBE (buf.take 4) < 256 ^ 4 := this
      _ = 2 ^ 32 := by norm_num
  · intro h
    refine ⟨read_uint64_of_length buf h, fun hb => ?_⟩
    have := fromBytesBE_lt (buf.take 8) hb
    have hlen : (buf.take 8).length = 8 := by
      simp [List.length_take]; omega
    rw [hlen] at this
    calc fromBytesBE (buf.take 8) < 256 ^ 8 := this
      _ = 2 ^ 64 := by norm_num

/-- Witness for C9 at a concrete buffer whose first byte has the sign bit
set (the DTB magic bytes). -/
theorem read_uint_correct_witness :
    read_uint32 [0xD0, 0x0D, 0xFE, 0xED] = some 0xD00DFEED ∧
    fromBytesBE [0xD0, 0x0D, 0xFE, 0xED] < 2 ^ 32 := by
  have h := read_uint_correct [0xD0, 0x0D, 0xFE, 0xED]
  have h4 := h.1 (by decide)
  refine ⟨?_, h4.2 (by decide)⟩
  rw [h4.1]
  decide

/-- The ten 32-bit header fields, in the source's `Header` namedtuple order
(`dtbiz.py` lines 66-70). -/
structure Header where
  magic : Nat
  totalsize : Nat
  off_dt_struct : Nat
  off_dt_strings : Nat
  off_mem_rsvmap : Nat
  version : Nat
  last_comp_version : Nat
  boot_cpuid_phys : Nat
  size_dt_strings : Nat
  size_dt_struct : Nat
deriving DecidableEq

/-- Failure conditions of `get_header`: `readError` models the `IndexError`
from `read_uint32` on a buffer shorter than 40 bytes; the rest name the
source's assertions (lines 93-107) in order. -/
inductive HdrErr where
  | readError
  | invalidMagic
  | sizeMismatch
  | unsupportedVersion
  | badLastCompVersion
  | rsvNotBeforeStruct
  | structNotBeforeStrings
  | stringsOutOfBounds
  | structOutOfBounds
  | rsvMisaligned
  | structMisaligned
deriving DecidableEq

/-- Big-endian 32-bit field of `buf` at byte offset `off` (total function;
meaningful when `off + 4 ≤ buf.length`). -/
def hfield (buf : List Nat) (off : Nat) : Nat := fromBytesBE (slice buf off (off + 4))

/-- The field-extraction half of `get_header` (`dtbiz.py` lines 74-88): the
ten `read_uint32` calls at offsets 0,4,...,36.  `none` models the
`IndexError` raised by the first failing read (reads fail monotonically in
the offset, so collapsing them to one failure case is faithful). -/
def readHeaderFields (buf : List Nat) : Option Header :=
  match read_uint32 (slice buf 0 4), read_uint32 (slice buf 4 8),
      read_uint32 (slice buf 8 12), read_uint32 (slice buf 12 16),
      read_uint32 (slice buf 16 20), read_uint32 (slice buf 20 24),
      read_uint32 (slice buf 24 28), read_uint32 (slice buf 28 32),
      read_uint32 (slice buf 32 36), read_uint32 (slice buf 36 40) with
  | some magic, some totalsize, some off_dt_struct, some off_dt_strings,
    some off_mem_rsvmap, some version, some last_comp_version,
    some boot_cpuid_phys, some size_dt_strings, some size_dt_struct =>
    some ⟨magic, totalsize, off_dt_struct, off_dt_strings,
      off_mem_rsvmap, version, last_comp_version, boot_cpuid_phys,
      size_dt_strings, size_dt_struct⟩
  | _, _, _, _, _, _, _, _, _, _ => none

/-- The assertion half of `get_header` (`dtbiz.py` lines 93-107), in source
order; each assertion maps to its own error. -/
def checkHeader (hdr : Header) (len : Nat) : Except HdrErr Header :=
  if hdr.magic = 0xD00DFEED then
    if hdr.totalsize = len then
      if 17 ≤ hdr.version then
        if hdr.last_comp_version = 16 then
          if hdr.off_mem_rsvmap < hdr.off_dt_struct then
            if hdr.off_dt_struct < hdr.off_dt_strings then
              if hdr.off_dt_strings + hdr.size_dt_strings ≤ hdr.totalsize then
                if hdr.off_dt_struct + hdr.size_dt_struct ≤ hdr.off_dt_strings then
                  if hdr.off_mem_rsvmap % 8 = 0 then
                    if hdr.off_dt_struct % 4 = 0 then .ok hdr
                    else .error .structMisaligned
                  else .error .rsvMisaligned
                else .error .structOutOfBounds
              else .error .stringsOutOfBounds
            else .error .structNotBeforeStrings
          else .error .rsvNotBeforeStruct
        else .error .badLastCompVersion
      else .error .unsupportedVersion
    else .error .sizeMismatch
  else .error .invalidMagic

/-- Embeds `get_header` (`dtbiz.py` lines 73-109): read the ten fields, then
run the assertions in source order. -/
def get_header (buf : List Nat) : Except HdrErr Header :=
  match readHeaderFields buf with
  | some hdr => checkHeader hdr buf.length
  | none => .error .readError

/-- The nine validation conditions of C1, expressed directly on the bytes of
the buffer. -/
def headerChecksHold (buf : List Nat) : Prop :=
  hfield buf 0 = 0xD00DFEED ∧ hfield buf 4 = buf.length ∧
  17 ≤ hfield buf 20 ∧ hfield buf 24 = 16 ∧
  hfield buf 16 < hfield buf 8 ∧ hfield buf 8 < hfield buf 12 ∧
  hfield buf 12 + hfield buf 32 ≤ hfield buf 4 ∧
  hfield buf 8 + hfield buf 36 ≤ hfield buf 12 ∧
  hfield buf 16 % 8 = 0 ∧ hfield buf 8 % 4 = 0

instance (buf : List Nat) : Decidable (headerChecksHold buf) := by
  unfold headerChecksHold; infer_instance

/-- Modelled from the spec: the first failing check, over the ten raw field
values and the buffer length, in the claimed order (magic first, then size,
version, last-compatible-version, section order, section bounds,
alignments). -/
def firstFailureFields (m ts ods odg omr v lcv sds sdt len : Nat) : Option HdrErr :=
  if m = 0xD00DFEED then
    if ts = len then
      if 17 ≤ v then
        if lcv = 16 then
          if omr < ods then
            if ods < odg then
              if odg + sds ≤ ts then
                if ods + sdt ≤ odg then
                  if omr % 8 = 0 then
                    if ods % 4 = 0 then none
                    else some .structMisaligned
                  else some .rsvMisaligned
                else some .structOutOfBounds
              else some .stringsOutOfBounds
            else some .structNotBeforeStrings
          else some .rsvNotBeforeStruct
        else some .badLastCompVersion
      else some .unsupportedVersion
    else some .sizeMismatch
  else some .invalidMagic

/-- Modelled from the spec: the first failing header check of a buffer, in
the claimed order. -/
def headerFirstFailureSpec (buf : List Nat) : Option HdrErr :=
  firstFailureFields (hfield buf 0) (hfield buf 4) (hfield buf 8)
    (hfield buf 12) (hfield buf 16) (hfield buf 20) (hfield buf 24)
    (hfield buf 32) (hfield buf 36) buf.length

set_option maxHeartbeats 1000000 in
lemma checkHeader_ok_iff (m ts ods odg omr v lcv bcp sds sdt len : Nat) :
    (∃ h, checkHeader ⟨m, ts, ods, odg, omr, v, lcv, bcp, sds, sdt⟩ len = .ok h) ↔
      (m = 0xD00DFEED ∧ ts = len ∧ 17 ≤ v ∧ lcv = 16 ∧ omr < ods ∧ ods < odg ∧
        odg + sds ≤ ts ∧ ods + sdt ≤ odg ∧ omr % 8 = 0 ∧ ods % 4 = 0) := by
  simp only [checkHeader]
  split_ifs <;> simp_all

set_option maxHeartbeats 1000000 in
lemma checkHeader_error_iff (m ts ods odg omr v lcv bcp sds sdt len : Nat) (e : HdrErr) :
    checkHeader ⟨m, ts, ods, odg, omr, v, lcv, bcp, sds, sdt⟩ len = .error e ↔
      firstFailureFields m ts ods odg omr v lcv sds sdt len = some e := by
  simp only [checkHeader, firstFailureFields]
  split_ifs <;> simp_all

lemma hfield_read (buf : List Nat) (off : Nat) (h : off + 4 ≤ buf.length) :
    read_uint32 (slice buf off (off + 4)) = some (hfield buf off) := by
  have hlen : (slice buf off (off + 4)).length = 4 := by
    simp [slice, List.length_take, List.length_drop]
    omega
  rw [read_uint32_of_length _ (by omega)]
  congr 1
  unfold hfield
  congr 1
  exact List.take_of_length_le (by omega)

lemma hfield_read_none (buf : List Nat) (off : Nat) (h : buf.length < off + 4) :
    read_uint32 (slice buf off (off + 4)) = none := by
  apply read_uint32_none
  simp [slice, List.length_take, List.length_drop]
  omega

lemma hfield_read' (buf : List Nat) (off j : Nat) (hj : j = off + 4)
    (h : off + 4 ≤ buf.length) :
    read_uint32 (slice buf off j) = some (hfield buf off) := by
  subst hj; exact hfield_read buf off h

lemma hfield_read_none' (buf : List Nat) (off j : Nat) (hj : j = off + 4)
    (h : buf.length < off + 4) :
    read_uint32 (slice buf off j) = none := by
  subst hj; exact hfield_read_none buf off h


lemma readHeaderFields_of_length (buf : List Nat) (h : 40 ≤ buf.length) :
    readHeaderFields buf = some ⟨hfield buf 0, hfield buf 4, hfield buf 8,
      hfield buf 12, hfield buf 16, hfield buf 20, hfield buf 24,
      hfield buf 28, hfield buf 32, hfield buf 36⟩ := by
  unfold readHeaderFields
  rw [hfield_read' buf 0 4 (by norm_num) (by omega),
    hfield_read' buf 4 8 (by norm_num) (by omega),
    hfield_read' buf 8 12 (by norm_num) (by omega),
    hfield_read' buf 12 16 (by norm_num) (by omega),
    hfield_read' buf 16 20 (by norm_num) (by omega),
    hfield_read' buf 20 24 (by norm_num) (by omega),
    hfield_read' buf 24 28 (by norm_num) (by omega),
    hfield_read' buf 28 32 (by norm_num) (by omega),
    hfield_read' buf 32 36 (by norm_num) (by omega),
    hfield_read' buf 36 40 (by norm_num) (by omega)]

lemma readHeaderFields_none (buf : List Nat) (h : buf.length < 40) :
    readHeaderFields buf = none := by
  unfold readHeaderFields
  by_cases c0 : 4 ≤ buf.length
  all_goals try { rw [hfield_read_none' buf 0 4 (by norm_num) (by omega)] }
  by_cases c1 : 8 ≤ buf.length
  all_goals try { rw [hfield_read' buf 0 4 (by norm_num) (by omega),
    hfield_read_none' buf 4 8 (by norm_num) (by omega)] }
  by_cases c2 : 12 ≤ buf.length
  all_goals try { rw [hfield_read' buf 0 4 (by norm_num) (by omega),
    hfield_read' buf 4 8 (by norm_num) (by omega),
    hfield_read_none' buf 8 12 (by norm_num) (by omega)] }
  by_cases c3 : 16 ≤ buf.length
  all_goals try { rw [hfield_read' buf 0 4 (by norm_num) (by omega),
    hfield_read' buf 4 8 (by norm_num) (by omega),
    hfield_read' buf 8 12 (by norm_num) (by omega),
    hfield_read_none' buf 12 16 (by norm_num) (by omega)] }
  by_cases c4 : 20 ≤ buf.length
  all_goals try { rw [hfield_read' buf 0 4 (by norm_num) (by omega),
    hfield_read' buf 4 8 (by norm_num) (by omega),
    hfield_read' buf 8 12 (by norm_num) (by omega),
    hfield_read' buf 12 16 (by norm_num) (by omega),
    hfield_read_none' buf 16 20 (by norm_num) (by omega)] }
  by_cases c5 : 24 ≤ buf.length
  all_goals try { rw [hfield_read' buf 0 4 (by norm_num) (by omega),
    hfield_read' buf 4 8 (by norm_num) (by omega),
    hfield_read' buf 8 12 (by norm_num) (by omega),
    hfield_read' buf 12 16 (by norm_num) (by omega),
    hfield_read' buf 16 20 (by norm_num) (by omega),
    hfield_read_none' buf 20 24 (by norm_num) (by omega)] }
  by_cases c6 : 28 ≤ buf.length
  all_goals try { rw [hfield_read' buf 0 4 (by norm_num) (by omega),
    hfield_read' buf 4 8 (by norm_num) (by omega),
    hfield_read' buf 8 12 (by norm_num) (by omega),
    hfield_read' buf 12 16 (by norm_num) (by omega),
    hfield_read' buf 16 20 (by norm_num) (by omega),
    hfield_read' buf 20 24 (by norm_num) (by omega),
    hfield_read_none' buf 24 28 (by norm_num) (by omega)] }
  by_cases c7 : 32 ≤ buf.length
  all_goals try { rw [hfield_read' buf 0 4 (by norm_num) (by omega),
    hfield_read' buf 4 8 (by norm_num) (by omega),
    hfield_read' buf 8 12 (by norm_num) (by omega),
    hfield_read' buf 12 16 (by norm_num) (by omega),
    hfield_read' buf 16 20 (by norm_num) (by omega),
    hfield_read' buf 20 24 (by norm_num) (by omega),
    hfield_read' buf 24 28 (by norm_num) (by omega),
    hfield_read_none' buf 28 32 (by norm_num) (by omega)] }
  by_cases c8 : 36 ≤ buf.length
  all_goals try { rw [hfield_read' buf 0 4 (by norm_num) (by omega),
    hfield_read' buf 4 8 (by norm_num) (by omega),
    hfield_read' buf 8 12 (by norm_num) (by omega),
    hfield_read' buf 12 16 (by norm_num) (by omega),
    hfield_read' buf 16 20 (by norm_num) (by omega),
    hfield_read' buf 20 24 (by norm_num) (by omega),
    hfield_read' buf 24 28 (by norm_num) (by omega),
    hfield_read' buf 28 32 (by norm_num) (by omega),
    hfield_read_none' buf 32 36 (by norm_num) (by omega)] }
  rw [hfield_read' buf 0 4 (by norm_num) (by omega),
    hfield_read' buf 4 8 (by norm_num) (by omega),
    hfield_read' buf 8 12 (by norm_num) (by omega),
    hfield_read' buf 12 16 (by norm_num) (by omega),
    hfield_read' buf 16 20 (by norm_num) (by omega),
    hfield_read' buf 20 24 (by norm_num) (by omega),
    hfield_read' buf 24 28 (by norm_num) (by omega),
    hfield_read' buf 28 32 (by norm_num) (by omega),
    hfield_read' buf 32 36 (by norm_num) (by omega),
    hfield_read_none' buf 36 40 (by norm_num) (by omega)]

/-- C1: `get_header` returns a header exactly when the buffer holds the ten
fields (is at least 40 bytes long) and all nine checks pass; on such buffers
the result is determined by the first failing check taken in the claimed
order, the magic check first. -/
theorem get_header_correct (buf : List Nat) :
    ((∃ h, get_header buf = .ok h) ↔ (40 ≤ buf.length ∧ headerChecksHold buf)) ∧
    (40 ≤ buf.length →
      ∀ e, (get_header buf = .error e ↔ headerFirstFailureSpec buf = some e)) := by
  by_cases hlen : 40 ≤ buf.length
  · have hget : get_header buf = checkHeader ⟨hfield buf 0, hfield buf 4,
        hfield buf 8, hfield buf 12, hfield buf 16, hfield buf 20,
        hfield buf 24, hfield buf 28, hfield buf 32, hfield buf 36⟩
        buf.length := by
      unfold get_header
      rw [readHeaderFields_of_length buf hlen]
    constructor
    · rw [hget, checkHeader_ok_iff]
      unfold headerChecksHold
      exact ⟨fun h => ⟨hlen, h⟩, fun h => h.2⟩
    · intro _ e
      rw [hget, checkHeader_error_iff]
      exact Iff.rfl
  · have hlt : buf.length < 40 := by omega
    have hget : get_header buf = .error .readError := by
      unfold get_header
      rw [readHeaderFields_none buf hlt]
    refine ⟨?_, fun h40 => absurd h40 hlen⟩
    rw [hget]
    simp [hlen]

/-- The five token kinds (`dtbiz.py` lines 35-39).  Names, paths and values
are raw byte lists. -/
inductive Token where
  | beginNode (name path : List Nat)
  | endNode
  | prop (name value : List Nat)
  | nop
  | endT
deriving DecidableEq

/-- Failure conditions of `get_structure_tokens`.  `readError` models
`IndexError` from `read_uint32`; `unbalancedNesting` models both
`parent_nodes.pop()` on an empty list (`IndexError`) and the
`assert node_depth >= 0`; the others name the remaining assertions.
`outOfFuel` is an artifact of the fuel-based embedding of the `while` loop
and is proven unreachable for the fuel `get_structure_tokens` supplies
(`decodeLoopF_no_fuel_out`). -/
inductive DecErr where
  | outOfFuel
  | readError
  | invalidRootName
  | invalidNodeName
  | unbalancedNesting
  | propertyOutsideNode
  | malformedEnd
  | unknownToken
deriving DecidableEq

/-- Characters allowed by the node-name character class
`[0-9a-zA-Z,._+-]` of the source's regular expression (line 145). -/
def isNameChar (c : Nat) : Bool :=
  (48 ≤ c && c ≤ 57) || (65 ≤ c && c ≤ 90) || (97 ≤ c && c ≤ 122) ||
    c == 44 || c == 46 || c == 95 || c == 43 || c == 45

/-- Full (both-ends anchored) match of the node-name pattern
`[0-9a-zA-Z,._+-]{1,31}(@[0-9a-zA-Z,._+-]+)?`.  Since `@` is not a name
character, backtracking never helps: the first segment must be the maximal
run of name characters. -/
def coreMatch (s : List Nat) : Bool :=
  decide (1 ≤ (s.takeWhile isNameChar).length) &&
  decide ((s.takeWhile isNameChar).length ≤ 31) &&
    ((s.dropWhile isNameChar).isEmpty ||
      ((s.dropWhile isNameChar).head? == some 64 &&
        !(s.dropWhile isNameChar).tail.isEmpty &&
        (s.dropWhile isNameChar).tail.all isNameChar))

/-- Embeds the source's
`re.match(r"^[0-9a-zA-Z,\._\+\-]{1,31}(@[0-9a-zA-Z,\._\+\-]+)?$", name)`
(lines 144-146) with Python semantics: in Python, `$` matches at the end of
the string or just before a trailing newline, so a matching name followed by
one final newline (byte 10) is also accepted. -/
def pythonNameMatch (s : List Nat) : Bool :=
  coreMatch s || (s.getLast? == some 10 && coreMatch s.dropLast)

/-- Modelled from the spec: a name "matches the pattern
`[A-Za-z0-9,._+-]{1,31}(@[A-Za-z0-9,._+-]+)?`" — the pattern read with its
usual fully-anchored meaning. -/
def specNameMatch (s : List Nat) : Bool := coreMatch s

/-- The name validation and path construction of the `FDT_BEGIN_NODE` branch
(`dtbiz.py` lines 140-147), applied after the name has been appended to
`parent_nodes` (so `parents1` includes the new name, as in the source). -/
def beginNodeCheck (depth : Int) (parents1 : List (List Nat))
    (name : List Nat) : Except DecErr (List Nat) :=
  if depth = 0 then
    if name = [] then .ok [47]
    else .error .invalidRootName
  else if pythonNameMatch name then .ok (List.intercalate [47] parents1)
  else .error .invalidNodeName

/-- Result of processing one token in the decoder loop: a failure, or an
emitted token together with the updated cursor, depth and ancestor-name
stack. -/
inductive StepRes where
  | err (e : DecErr)
  | emit (t : Token) (off : Nat) (depth : Int) (parents : List (List Nat))

/-- The `FDT_BEGIN_NODE` branch (`dtbiz.py` lines 133-150).  `off1` is the
cursor just after the token tag.  `buf[off:].find(b"\0")` is modelled by
`findIdx?`; when no NUL exists Python gets `name_len = -1`, making
`buf[off : off + name_len]` empty and the cursor advance
`-1 + 4 - (-1 % 4) = 0` (Python's `%` on negatives), which the `none`
branches reproduce. -/
def stepBegin (buf : List Nat) (off1 : Nat) (depth : Int)
    (parents : List (List Nat)) : StepRes :=
  match (buf.drop off1).findIdx? (· == 0) with
  | some n =>
    match beginNodeCheck depth (parents ++ [slice buf off1 (off1 + n)])
        (slice buf off1 (off1 + n)) with
    | .error e => .err e
    | .ok path => .emit (.beginNode (slice buf off1 (off1 + n)) path)
        (off1 + n + (4 - n % 4)) (depth + 1)
        (parents ++ [slice buf off1 (off1 + n)])
  | none =>
    match beginNodeCheck depth (parents ++ [[]]) [] with
    | .error e => .err e
    | .ok path => .emit (.beginNode [] path) off1 (depth + 1) (parents ++ [[]])

/-- Resolution of a property name from the strings block
(`dtbiz.py` lines 163-164): the bytes from `off_dt_strings + name_off` up
to the first NUL.  When no NUL exists Python's `find` returns `-1` and
`name_buf[:-1]` drops the last byte, which the `none` branch reproduces. -/
def propName (buf : List Nat) (hdr : Header) (nameOff : Nat) : List Nat :=
  match (buf.drop (hdr.off_dt_strings + nameOff)).findIdx? (· == 0) with
  | some i => (buf.drop (hdr.off_dt_strings + nameOff)).take i
  | none => (buf.drop (hdr.off_dt_strings + nameOff)).dropLast

/-- The `FDT_PROP` branch (`dtbiz.py` lines 156-171).  `off1` is the cursor
just after the token tag. -/
def stepProp (buf : List Nat) (hdr : Header) (off1 : Nat) (depth : Int)
    (parents : List (List Nat)) : StepRes :=
  if depth ≤ 0 then .err .propertyOutsideNode
  else
    match read_uint32 (slice buf off1 (off1 + 4)),
        read_uint32 (slice buf (off1 + 4) (off1 + 8)) with
    | some propLen, some nameOff =>
      .emit (.prop (propName buf hdr nameOff) (slice buf (off1 + 8) (off1 + 8 + propLen)))
        (off1 + 8 + propLen + (if propLen % 4 ≠ 0 then 4 - propLen % 4 else 0))
        depth parents
    | _, _ => .err .readError

/-- One iteration of the `while` loop of `get_structure_tokens`
(`dtbiz.py` lines 126-185), given that the loop condition holds: read the
tag at `off` and process it. -/
def decodeStep (buf : List Nat) (hdr : Header) (off : Nat) (depth : Int)
    (parents : List (List Nat)) : StepRes :=
  match read_uint32 (slice buf off (off + 4)) with
  | none => .err .readError
  | some tokenType =>
    if tokenType = 1 then stepBegin buf (off + 4) depth parents
    else if tokenType = 2 then
      match parents with
      | [] => .err .unbalancedNesting
      | _ :: _ =>
        if depth - 1 < 0 then .err .unbalancedNesting
        else .emit .endNode (off + 4) (depth - 1) parents.dropLast
    else if tokenType = 3 then stepProp buf hdr (off + 4) depth parents
    else if tokenType = 4 then .emit .nop (off + 4) depth parents
    else if tokenType = 9 then
      if off + 4 ≠ hdr.off_dt_struct + hdr.size_dt_struct then .err .malformedEnd
      else if depth ≠ 0 then .err .malformedEnd
      else .emit .endT (off + 4) depth parents
    else .err .unknownToken

/-- The `while` loop of `get_structure_tokens` (`dtbiz.py` line 125),
fuel-indexed so that the recursion is structural.  Returns the yielded
tokens, the error (if any) that aborted the generator, and the final cursor
position. -/
def decodeLoopF (buf : List Nat) (hdr : Header) :
    Nat → Nat → Int → List (List Nat) → List Token × Option DecErr × Nat
  | 0, off, _, _ =>
    if off < hdr.off_dt_strings ∧ off < hdr.off_dt_struct + hdr.size_dt_struct then
      ([], some .outOfFuel, off)
    else ([], none, off)
  | fuel + 1, off, depth, parents =>
    if off < hdr.off_dt_strings ∧ off < hdr.off_dt_struct + hdr.size_dt_struct then
      match decodeStep buf hdr off depth parents with
      | .err e => ([], some e, off)
      | .emit t off1 depth1 parents1 =>
        let r := decodeLoopF buf hdr fuel off1 depth1 parents1
        (t :: r.1, r.2.1, r.2.2)
    else ([], none, off)

/-- Embeds the generator `get_structure_tokens` (`dtbiz.py` lines 121-185):
run the loop from the structure offset with depth `0` and an empty ancestor
stack.  The fuel `hdr.off_dt_strings + 1` suffices because every iteration
advances the cursor by at least 4 (`decodeLoopF_no_fuel_out`). -/
def get_structure_tokens (buf : List Nat) (hdr : Header) :
    List Token × Option DecErr × Nat :=
  decodeLoopF buf hdr (hdr.off_dt_strings + 1) hdr.off_dt_struct 0 []

/-- A minimal well-formed DTB: header, empty reservation table, structure
block `BEGIN ""`, `BEGIN "soc"`, `END_NODE`, `END_NODE`, `END`, empty
strings block. -/
def bufA : List Nat :=
  [208, 13, 254, 237, 0, 0, 0, 84, 0, 0, 0, 56, 0, 0, 0, 84, 0, 0, 0, 40,
   0, 0, 0, 17, 0, 0, 0, 16, 0, 0, 0, 0, 0, 0, 0, 0, 0, 0, 0, 28,
   0, 0, 0, 0, 0, 0, 0, 0, 0, 0, 0, 0, 0, 0, 0, 0,
   0, 0, 0, 1, 0, 0, 0, 0, 0, 0, 0, 1, 115, 111, 99, 0,
   0, 0, 0, 2, 0, 0, 0, 2, 0, 0, 0, 9]

/-- The header of `bufA`. -/
def hdrA : Header := ⟨0xD00DFEED, 84, 56, 84, 40, 17, 16, 0, 0, 28⟩

/-- A DTB whose single non-root node is named `"soc\n"` (a trailing
newline). -/
def bufNl : List Nat :=
  [208, 13, 254, 237, 0, 0, 0, 88, 0, 0, 0, 56, 0, 0, 0, 88, 0, 0, 0, 40,
   0, 0, 0, 17, 0, 0, 0, 16, 0, 0, 0, 0, 0, 0, 0, 0, 0, 0, 0, 32,
   0, 0, 0, 0, 0, 0, 0, 0, 0, 0, 0, 0, 0, 0, 0, 0,
   0, 0, 0, 1, 0, 0, 0, 0, 0, 0, 0, 1, 115, 111, 99, 10, 0, 0, 0, 0,
   0, 0, 0, 2, 0, 0, 0, 2, 0, 0, 0, 9]

/-- The header of `bufNl`. -/
def hdrNl : Header := ⟨0xD00DFEED, 88, 56, 88, 40, 17, 16, 0, 0, 32⟩

/-- A DTB with a valid header whose structure block holds `BEGIN ""`
followed by a `PROP` whose declared value length (100) extends far past the
end of the structure block (and the buffer). -/
def bufTrunc : List Nat :=
  [208, 13, 254, 237, 0, 0, 0, 76, 0, 0, 0, 56, 0, 0, 0, 76, 0, 0, 0, 40,
   0, 0, 0, 17, 0, 0, 0, 16, 0, 0, 0, 0, 0, 0, 0, 0, 0, 0, 0, 20,
   0, 0, 0, 0, 0, 0, 0, 0, 0, 0, 0, 0, 0, 0, 0, 0,
   0, 0, 0, 1, 0, 0, 0, 0, 0, 0, 0, 3, 0, 0, 0, 100, 0, 0, 0, 0]

/-- The header of `bufTrunc`. -/
def hdrTrunc : Header := ⟨0xD00DFEED, 76, 56, 76, 40, 17, 16, 0, 0, 20⟩

/-- Everything an emitted decoder step guarantees about the produced token
and successor state. -/
lemma decodeStep_emit (buf : List Nat) (hdr : Header) (off : Nat)
    (depth : Int) (parents : List (List Nat)) (t : Token) (off1 : Nat)
    (depth1 : Int) (parents1 : List (List Nat))
    (h : decodeStep buf hdr off depth parents = .emit t off1 depth1 parents1) :
    off + 4 ≤ off1 ∧
    (match t with
     | .beginNode nm pth => parents1 = parents ++ [nm] ∧ depth1 = depth + 1 ∧
         beginNodeCheck depth (parents ++ [nm]) nm = .ok pth
     | .endNode => parents ≠ [] ∧ ¬ depth - 1 < 0 ∧ depth1 = depth - 1 ∧
         parents1 = parents.dropLast
     | .prop _ _ => 0 < depth ∧ depth1 = depth ∧ parents1 = parents
     | .nop => depth1 = depth ∧ parents1 = parents
     | .endT => depth = 0 ∧ depth1 = depth ∧ parents1 = parents) := by
  unfold decodeStep at h
  split at h
  · simp at h
  · rename_i tokenType hread
    by_cases h1 : tokenType = 1
    · rw [if_pos h1] at h
      unfold stepBegin at h
      split at h
      · split at h
        · simp at h
        · rename_i n hn path heq
          injection h with ht hoff hdep hpar
          subst ht hoff hdep hpar
          exact ⟨by omega, rfl, rfl, heq⟩
      · split at h
        · simp at h
        · rename_i hn path heq
          injection h with ht hoff hdep hpar
          subst ht hoff hdep hpar
          exact ⟨by omega, rfl, rfl, heq⟩
    · rw [if_neg h1] at h
      by_cases h2 : tokenType = 2
      · rw [if_pos h2] at h
        split at h
        · simp at h
        · split_ifs at h with hd
          injection h with ht hoff hdep hpar
          subst ht hoff hdep hpar
          exact ⟨by omega, by simp, hd, rfl, rfl⟩
      · rw [if_neg h2] at h
        by_cases h3 : tokenType = 3
        · rw [if_pos h3] at h
          unfold stepProp at h
          split_ifs at h with hd
          split at h
          · rename_i propLen nameOff hq1 hq2
            injection h with ht hoff hdep hpar
            subst ht hoff hdep hpar
            refine ⟨?_, by omega, rfl, rfl⟩
            by_cases hp : propLen % 4 ≠ 0 <;> simp [hp] <;> omega
          · simp at h
        · rw [if_neg h3] at h
          by_cases h4 : tokenType = 4
          · rw [if_pos h4] at h
            injection h with ht hoff hdep hpar
            subst ht hoff hdep hpar
            exact ⟨by omega, rfl, rfl⟩
          · rw [if_neg h4] at h
            by_cases h5 : tokenType = 9
            · rw [if_pos h5] at h
              split_ifs at h with he1 he2
              injection h with ht hoff hdep hpar
              subst ht hoff hdep hpar
              exact ⟨by omega, by omega, rfl, rfl⟩
            · rw [if_neg h5] at h
              simp at h

/-- The only errors `beginNodeCheck` produces. -/
lemma beginNodeCheck_error (depth : Int) (ps : List (List Nat))
    (nm : List Nat) (e : DecErr) (h : beginNodeCheck depth ps nm = .error e) :
    e = .invalidRootName ∨ e = .invalidNodeName := by
  unfold beginNodeCheck at h
  split_ifs at h <;> simp_all

/-- `decodeStep` never produces the artificial `outOfFuel` error. -/
lemma decodeStep_err_ne_fuel (buf : List Nat) (hdr : Header) (off : Nat)
    (depth : Int) (parents : List (List Nat)) (e : DecErr)
    (h : decodeStep buf hdr off depth parents = .err e) : e ≠ .outOfFuel := by
  intro he
  subst he
  unfold decodeStep stepBegin stepProp at h
  repeat' split at h
  all_goals try simp_all
  all_goals (rename_i hbc; rcases beginNodeCheck_error _ _ _ _ hbc with h1 | h1 <;> simp_all)

/-- If the decoder loop terminates without error, its final cursor has
reached `min (strings offset) (structure offset + structure size)`. -/
lemma decodeLoopF_final_off (buf : List Nat) (hdr : Header) :
    ∀ (fuel off : Nat) (depth : Int) (parents : List (List Nat)),
      (decodeLoopF buf hdr fuel off depth parents).2.1 = none →
      min hdr.off_dt_strings (hdr.off_dt_struct + hdr.size_dt_struct) ≤
        (decodeLoopF buf hdr fuel off depth parents).2.2 := by
  intro fuel
  induction fuel with
  | zero =>
    intro off depth parents h
    unfold decodeLoopF at h ⊢
    split_ifs at h ⊢ with hc
    all_goals try simp_all
    all_goals omega
  | succ n ih =>
    intro off depth parents h
    unfold decodeLoopF at h ⊢
    split_ifs at h ⊢ with hc
    · revert h
      split
      · simp
      · rename_i t off1 depth1 parents1 hstep
        intro h
        dsimp only at h ⊢
        exact ih off1 depth1 parents1 h
    · dsimp only
      omega

/-- With fuel at least `(strings offset - cursor) / 4 + 1`, the loop never
runs out of fuel: every iteration advances the cursor by at least 4. -/
lemma decodeLoopF_no_fuel_out (buf : List Nat) (hdr : Header) :
    ∀ (fuel off : Nat) (depth : Int) (parents : List (List Nat)),
      hdr.off_dt_strings ≤ off + 4 * fuel →
      (decodeLoopF buf hdr fuel off depth parents).2.1 ≠ some .outOfFuel := by
  intro fuel
  induction fuel with
  | zero =>
    intro off depth parents hf
    unfold decodeLoopF
    split_ifs with hc
    · omega
    · simp
  | succ n ih =>
    intro off depth parents hf
    unfold decodeLoopF
    split_ifs with hc
    · split
      · rename_i e hstep
        simpa using decodeStep_err_ne_fuel buf hdr off depth parents e hstep
      · rename_i t off1 depth1 parents1 hstep
        have hadv := (decodeStep_emit buf hdr off depth parents t off1
          depth1 parents1 hstep).1
        simpa using ih off1 depth1 parents1 (by omega)
    · simp

/-- The fuel chosen by `get_structure_tokens` is always sufficient. -/
lemma get_structure_tokens_no_fuel_out (buf : List Nat) (hdr : Header) :
    (get_structure_tokens buf hdr).2.1 ≠ some .outOfFuel := by
  unfold get_structure_tokens
  exact decodeLoopF_no_fuel_out buf hdr (hdr.off_dt_strings + 1)
    hdr.off_dt_struct 0 [] (by omega)

/-- Witness for C1 at the concrete valid buffer `bufA`. -/
theorem get_header_correct_witness :
    (∃ h, get_header bufA = .ok h) ∧
    (get_header bufA = .error HdrErr.invalidMagic ↔
      headerFirstFailureSpec bufA = some HdrErr.invalidMagic) :=
  ⟨(get_header_correct bufA).1.mpr ⟨by decide, by decide⟩,
    (get_header_correct bufA).2 (by decide) _⟩

/-- C2 counterexample: `bufTrunc` has a valid header, yet its structure
block holds a Property token whose recorded value length (100) moves the
cursor from 68 to 176, far past `min (strings offset) (structure offset +
structure size) = 76`, and the decoder neither fails nor produces an End
token: it yields the Begin and Property tokens and silently stops. -/
theorem truncated_stream_counterexample :
    get_header bufTrunc = .ok hdrTrunc ∧
    (get_structure_tokens bufTrunc hdrTrunc).1 =
      [.beginNode [] [47], .prop [] []] ∧
    (get_structure_tokens bufTrunc hdrTrunc).2.1 = none ∧
    (get_structure_tokens bufTrunc hdrTrunc).2.2 = 176 ∧
    Token.endT ∉ (get_structure_tokens bufTrunc hdrTrunc).1 ∧
    min hdrTrunc.off_dt_strings
      (hdrTrunc.off_dt_struct + hdrTrunc.size_dt_struct) = 76 :=
  ⟨rfl, rfl, rfl, rfl, by decide, rfl⟩

/-- C2 amended: the decoder never signals a truncation error; instead,
whenever the token stream ends without an error the cursor has reached (or
moved past) `min (strings offset) (structure offset + structure size)` —
a stream that overruns the bound mid-token simply stops there silently. -/
theorem decoder_stops_at_bound (buf : List Nat) (hdr : Header)
    (h : (get_structure_tokens buf hdr).2.1 = none) :
    min hdr.off_dt_strings (hdr.off_dt_struct + hdr.size_dt_struct) ≤
      (get_structure_tokens buf hdr).2.2 :=
  decodeLoopF_final_off buf hdr (hdr.off_dt_strings + 1) hdr.off_dt_struct 0 [] h

/-- Witness for the amended C2 at the concrete buffer `bufA`. -/
theorem decoder_stops_at_bound_witness :
    (get_structure_tokens bufA hdrA).2.1 = none ∧
    min hdrA.off_dt_strings (hdrA.off_dt_struct + hdrA.size_dt_struct) ≤
      (get_structure_tokens bufA hdrA).2.2 :=
  ⟨rfl, decoder_stops_at_bound bufA hdrA rfl⟩

/-- Contribution of one token to the running nesting depth. -/
def tokenDelta : Token → Int
  | .beginNode _ _ => 1
  | .endNode => -1
  | _ => 0

/-- Running nesting depth of a token sequence: BeginNodes minus EndNodes. -/
def runningDepth (ts : List Token) : Int :=
  ts.foldl (fun d t => d + tokenDelta t) 0

lemma runningDepth_shift (ts : List Token) :
    ∀ a : Int, ts.foldl (fun d t => d + tokenDelta t) a = a + runningDepth ts := by
  induction ts with
  | nil => intro a; simp [runningDepth]
  | cons t ts ih =>
    intro a
    show (ts.foldl _ (a + tokenDelta t)) = _
    rw [ih (a + tokenDelta t)]
    show a + tokenDelta t + runningDepth ts = a + runningDepth (t :: ts)
    have : runningDepth (t :: ts) = ts.foldl (fun d x => d + tokenDelta x) (0 + tokenDelta t) := rfl
    rw [this, ih (0 + tokenDelta t)]
    ring

lemma runningDepth_cons (t : Token) (ts : List Token) :
    runningDepth (t :: ts) = tokenDelta t + runningDepth ts := by
  have : runningDepth (t :: ts) = ts.foldl (fun d x => d + tokenDelta x) (0 + tokenDelta t) := rfl
  rw [this, runningDepth_shift]
  ring

/-- An emitted step keeps the depth counter and the ancestor stack length in
sync, and changes both by the emitted token's depth contribution. -/
lemma decodeStep_emit_sync (buf : List Nat) (hdr : Header) (off : Nat)
    (depth : Int) (parents : List (List Nat)) (t : Token) (off1 : Nat)
    (depth1 : Int) (parents1 : List (List Nat))
    (h : decodeStep buf hdr off depth parents = .emit t off1 depth1 parents1)
    (hs : depth = (parents.length : Int)) :
    depth1 = (parents1.length : Int) ∧
    (parents1.length : Int) = (parents.length : Int) + tokenDelta t := by
  have hf := (decodeStep_emit buf hdr off depth parents t off1 depth1 parents1 h).2
  cases t with
  | beginNode nm pth =>
    obtain ⟨hp, hd, _⟩ := hf
    subst hp hd
    simp [tokenDelta, hs]
  | endNode =>
    obtain ⟨hne, hnn, hd, hp⟩ := hf
    subst hd hp
    have hlen : parents.length = parents.dropLast.length + 1 := by
      cases parents with
      | nil => exact absurd rfl hne
      | cons a l => simp
    constructor
    · rw [hs, hlen]; push_cast; simp [tokenDelta]
    · rw [hlen]; push_cast; simp [tokenDelta]
  | prop nm v =>
    obtain ⟨_, hd, hp⟩ := hf
    subst hd hp
    simp [tokenDelta, hs]
  | nop =>
    obtain ⟨hd, hp⟩ := hf
    subst hd hp
    simp [tokenDelta, hs]
  | endT =>
    obtain ⟨_, hd, hp⟩ := hf
    subst hd hp
    simp [tokenDelta, hs]

/-- Every prefix of the decoder-loop output, started from a state whose
depth matches its stack, keeps `stack length + running depth` nonnegative. -/
lemma decodeLoopF_depth_prefix (buf : List Nat) (hdr : Header) :
    ∀ (fuel off : Nat) (depth : Int) (parents : List (List Nat)),
      depth = (parents.length : Int) →
      ∀ p t : List Token,
        p ++ t = (decodeLoopF buf hdr fuel off depth parents).1 →
        0 ≤ (parents.length : Int) + runningDepth p := by
  intro fuel
  induction fuel with
  | zero =>
    intro off depth parents hs p t hp
    unfold decodeLoopF at hp
    split_ifs at hp <;>
      (dsimp only at hp; obtain ⟨rfl, rfl⟩ := List.append_eq_nil.mp hp; simp [runningDepth])
  | succ n ih =>
    intro off depth parents hs p t hp
    unfold decodeLoopF at hp
    split_ifs at hp with hc
    · revert hp
      split
      · intro hp
        dsimp only at hp
        obtain ⟨rfl, rfl⟩ := List.append_eq_nil.mp hp
        simp [runningDepth]
      · rename_i t1 off1 depth1 parents1 hstep
        intro hp
        dsimp only at hp
        cases p with
        | nil => simp [runningDepth]
        | cons q p' =>
          rw [List.cons_append] at hp
          injection hp with hq hp'
          subst hq
          have hsync := decodeStep_emit_sync buf hdr off depth parents q off1
            depth1 parents1 hstep hs
          have hih := ih off1 depth1 parents1 hsync.1 p' t hp'
          rw [runningDepth_cons]
          have := hsync.2
          omega
    · dsimp only at hp
      obtain ⟨rfl, rfl⟩ := List.append_eq_nil.mp hp
      simp [runningDepth]

/-- C5: reading an EndNode tag (2) at nesting depth 0 with the (matching)
empty ancestor stack makes the decoder fail at once — the source's
`parent_nodes.pop()` / `assert node_depth >= 0` site, the spec's
`UnbalancedNesting` — yielding no token; and for every prefix of any
decoded token stream the running nesting depth never goes negative. -/
theorem unbalanced_nesting_guard :
    (∀ (buf : List Nat) (hdr : Header) (fuel off : Nat),
      off < hdr.off_dt_strings →
      off < hdr.off_dt_struct + hdr.size_dt_struct →
      read_uint32 (slice buf off (off + 4)) = some 2 →
      decodeLoopF buf hdr (fuel + 1) off 0 [] =
        ([], some DecErr.unbalancedNesting, off)) ∧
    (∀ (buf : List Nat) (hdr : Header) (p t : List Token),
      p ++ t = (get_structure_tokens buf hdr).1 → 0 ≤ runningDepth p) := by
  constructor
  · intro buf hdr fuel off h1 h2 hr
    unfold decodeLoopF
    rw [if_pos ⟨h1, h2⟩]
    unfold decodeStep
    rw [hr]
    rfl
  · intro buf hdr p t hp
    have := decodeLoopF_depth_prefix buf hdr (hdr.off_dt_strings + 1)
      hdr.off_dt_struct 0 [] (by simp) p t hp
    simpa using this

/-- Witness for C5: a concrete EndNode-first stream fails with
`unbalancedNesting`, and a concrete prefix of `bufA`'s token stream has
nonnegative running depth. -/
theorem unbalanced_nesting_guard_witness :
    decodeLoopF [0, 0, 0, 2] hdrA 1 0 0 [] =
      ([], some DecErr.unbalancedNesting, 0) ∧
    0 ≤ runningDepth [Token.beginNode [] [47]] := by
  constructor
  · exact unbalanced_nesting_guard.1 [0, 0, 0, 2] hdrA 0 0 (by decide)
      (by decide) (by decide)
  · exact unbalanced_nesting_guard.2 bufA hdrA [Token.beginNode [] [47]]
      [Token.beginNode [115, 111, 99] [47, 115, 111, 99], Token.endNode,
        Token.endNode, Token.endT] rfl

/-- Scan for a doubled slash, carrying the previous byte. -/
def noDSFrom (prev : Nat) : List Nat → Bool
  | [] => true
  | a :: t => !(prev == 47 && a == 47) && noDSFrom a t

/-- A byte string contains no two adjacent `/` (47) bytes. -/
def noDoubleSlash (l : List Nat) : Bool := noDSFrom 0 l

lemma noDSFrom_append (p : Nat) (l r : List Nat) :
    noDSFrom p (l ++ r) = (noDSFrom p l && noDSFrom (l.getLastD p) r) := by
  induction l generalizing p with
  | nil => simp [noDSFrom]
  | cons a t ih =>
    show noDSFrom p (a :: (t ++ r)) = _
    simp only [noDSFrom]
    rw [ih a]
    cases t with
    | nil => simp [noDSFrom, List.getLastD, Bool.and_assoc]
    | cons b u =>
      rw [List.getLastD_cons p a (b :: u)]
      simp [Bool.and_assoc]

lemma noDSFrom_of_no47 (l : List Nat) (h : 47 ∉ l) : ∀ p, noDSFrom p l = true := by
  induction l with
  | nil => intro p; rfl
  | cons a t ih =>
    intro p
    have ha : a ≠ 47 := fun he => h (by simp [he])
    have ht : 47 ∉ t := fun he => h (by simp [he])
    simp [noDSFrom, ih ht, ha, Ne.symm ha]

lemma getLastD_mem (l : List Nat) (d : Nat) (h : l ≠ []) : l.getLastD d ∈ l := by
  induction l generalizing d with
  | nil => exact absurd rfl h
  | cons a t ih =>
    cases t with
    | nil => simp [List.getLastD]
    | cons b u =>
      rw [List.getLastD_cons]
      exact List.mem_cons_of_mem a (ih a (by simp))

lemma intercalate_cons_of_ne_nil (x : List Nat) (xs : List (List Nat))
    (h : xs ≠ []) :
    List.intercalate [47] (x :: xs) = x ++ 47 :: List.intercalate [47] xs := by
  cases xs with
  | nil => exact absurd rfl h
  | cons y ys => simp [List.intercalate, List.intersperse]

lemma noDSFrom_intercalate (ns : List (List Nat))
    (h : ∀ m ∈ ns, m ≠ [] ∧ 47 ∉ m) :
    noDSFrom 47 (List.intercalate [47] ns) = true := by
  induction ns with
  | nil => rfl
  | cons n rest ih =>
    cases rest with
    | nil =>
      have hn := h n (by simp)
      have : List.intercalate [47] [n] = n := by
        simp [List.intercalate, List.intersperse]
      rw [this]
      exact noDSFrom_of_no47 n hn.2 47
    | cons n2 rest2 =>
      have hn := h n (by simp)
      rw [intercalate_cons_of_ne_nil n (n2 :: rest2) (by simp)]
      have hrec := ih (fun m hm => h m (by simp [hm]))
      have hlast : n.getLastD 47 ≠ 47 := by
        intro he
        exact hn.2 (he ▸ getLastD_mem n 47 hn.1)
      have hlast2 : n.getLast?.getD 47 ≠ 47 := by
        rw [← List.getLastD_eq_getLast?]
        exact hlast
      rw [noDSFrom_append 47 n (47 :: List.intercalate [47] (n2 :: rest2)),
        noDSFrom_of_no47 n hn.2 47]
      show (true && (!(n.getLastD 47 == 47 && (47 : Nat) == 47) &&
        noDSFrom 47 (List.intercalate [47] (n2 :: rest2)))) = true
      simp [hlast, hlast2, hrec]

/-- The shape every path produced by the decoder has: the root path `/`, or
`/` followed by the `/`-joined nonempty slash-free names of the ancestors
and the node itself. -/
def goodPath (nm pth : List Nat) : Prop :=
  (nm = [] ∧ pth = [47]) ∨
  (∃ ns : List (List Nat), ns ≠ [] ∧ (∀ m ∈ ns, m ≠ [] ∧ 47 ∉ m) ∧
    pth = 47 :: List.intercalate [47] ns ∧ ns.getLast? = some nm)

lemma goodPath_noDS (nm pth : List Nat) (h : goodPath nm pth) :
    noDoubleSlash pth = true := by
  rcases h with ⟨_, rfl⟩ | ⟨ns, hne, hm, rfl, _⟩
  · rfl
  · show noDSFrom 0 (47 :: List.intercalate [47] ns) = true
    have := noDSFrom_intercalate ns hm
    simp [noDSFrom, this]

lemma coreMatch_good (s : List Nat) (h : coreMatch s = true) :
    s ≠ [] ∧ 47 ∉ s := by
  simp only [coreMatch, Bool.and_eq_true, Bool.or_eq_true, decide_eq_true_eq] at h
  obtain ⟨⟨h1, _⟩, hrest⟩ := h
  constructor
  · intro he
    subst he
    simp at h1
  · intro h47
    have hsplit : s.takeWhile isNameChar ++ s.dropWhile isNameChar = s :=
      List.takeWhile_append_dropWhile isNameChar s
    rw [← hsplit] at h47
    rcases List.mem_append.mp h47 with hseg | hdrop
    · have := List.mem_takeWhile_imp hseg
      simp [isNameChar] at this
    · rcases hrest with hempty | ⟨⟨h64, hne2⟩, hall⟩
      · rw [List.isEmpty_iff] at hempty
        rw [hempty] at hdrop
        simp at hdrop
      · have hne3 : s.dropWhile isNameChar ≠ [] := by
          intro he; rw [he] at h64; simp at h64
        obtain ⟨r0, rt, hdw⟩ := List.exists_cons_of_ne_nil hne3
        rw [hdw] at h64
        simp only [List.head?_cons, beq_iff_eq, Option.some.injEq] at h64
        subst h64
        rw [hdw] at hdrop
        have hall' : rt.all isNameChar = true := by
          rw [hdw] at hall; simpa using hall
        rcases List.mem_cons.mp hdrop with h47' | h47t
        · simp at h47'
        · have := (List.all_eq_true.mp hall') 47 h47t
          simp [isNameChar] at this

lemma pythonNameMatch_good (s : List Nat) (h : pythonNameMatch s = true) :
    s ≠ [] ∧ 47 ∉ s := by
  simp only [pythonNameMatch, Bool.or_eq_true, Bool.and_eq_true, beq_iff_eq] at h
  rcases h with hc | ⟨hlast, hc⟩
  · exact coreMatch_good s hc
  · have hgd := coreMatch_good s.dropLast hc
    have hne : s ≠ [] := by
      intro he; subst he; simp at hlast
    refine ⟨hne, fun h47 => ?_⟩
    have := List.dropLast_append_getLast? 10 hlast
    rw [← this] at h47
    rcases List.mem_append.mp h47 with hdl | hl
    · exact hgd.2 hdl
    · simp at hl

/-- Invariant of the decoder's ancestor-name stack: either nothing has been
pushed, or the root's empty name sits at the bottom and every other entry is
a nonempty slash-free accepted name. -/
def parentsInv (ps : List (List Nat)) : Prop :=
  ps = [] ∨ ∃ rest, ps = [] :: rest ∧ ∀ m ∈ rest, m ≠ [] ∧ 47 ∉ m

lemma beginNodeCheck_ok (depth : Int) (ps1 : List (List Nat))
    (nm pth : List Nat) (h : beginNodeCheck depth ps1 nm = .ok pth) :
    (depth = 0 ∧ nm = [] ∧ pth = [47]) ∨
    (depth ≠ 0 ∧ pythonNameMatch nm = true ∧
      pth = List.intercalate [47] ps1) := by
  unfold beginNodeCheck at h
  split_ifs at h <;> simp_all

/-- An emitted step preserves the stack invariant, and any emitted BeginNode
token carries a well-formed path. -/
lemma decodeStep_emit_inv (buf : List Nat) (hdr : Header) (off : Nat)
    (depth : Int) (parents : List (List Nat)) (t : Token) (off1 : Nat)
    (depth1 : Int) (parents1 : List (List Nat))
    (h : decodeStep buf hdr off depth parents = .emit t off1 depth1 parents1)
    (hs : depth = (parents.length : Int)) (hi : parentsInv parents) :
    parentsInv parents1 ∧
    (∀ nm pth, t = .beginNode nm pth → goodPath nm pth) := by
  have hf := (decodeStep_emit buf hdr off depth parents t off1 depth1 parents1 h).2
  cases t with
  | beginNode nm pth =>
    obtain ⟨hp, hd, hbnc⟩ := hf
    rcases beginNodeCheck_ok depth (parents ++ [nm]) nm pth hbnc with
      ⟨hd0, hnm, hpth⟩ | ⟨hdne, hmatch, hpth⟩
    · have hpe : parents = [] := by
        cases parents with
        | nil => rfl
        | cons a l => rw [hd0] at hs; simp at hs; omega
      subst hpe hnm
      constructor
      · right
        exact ⟨[], by simpa using hp, by simp⟩
      · intro nm' pth' he
        injection he with h1 h2
        subst h1 h2
        exact Or.inl ⟨rfl, hpth⟩
    · rcases hi with hpe | ⟨rest, hpe, hrest⟩
      · subst hpe
        simp at hs
        exact absurd (by omega : depth = 0) hdne
      · subst hpe
        have hnm := pythonNameMatch_good nm hmatch
        have hmem : ∀ m ∈ rest ++ [nm], m ≠ [] ∧ 47 ∉ m := by
          intro m hm
          rcases List.mem_append.mp hm with hm1 | hm2
          · exact hrest m hm1
          · simp at hm2; subst hm2; exact hnm
        constructor
        · right
          refine ⟨rest ++ [nm], ?_, hmem⟩
          rw [hp]; simp
        · intro nm' pth' he
          injection he with h1 h2
          subst h1 h2
          right
          refine ⟨rest ++ [nm], by simp, hmem, ?_, List.getLast?_concat rest⟩
          rw [hpth]
          have : ([] :: rest) ++ [nm] = [] :: (rest ++ [nm]) := by simp
          rw [this, intercalate_cons_of_ne_nil [] (rest ++ [nm]) (by simp)]
          simp
  | endNode =>
    obtain ⟨hne, _, _, hp⟩ := hf
    subst hp
    refine ⟨?_, by intro nm pth he; cases he⟩
    rcases hi with hpe | ⟨rest, hpe, hrest⟩
    · exact absurd hpe hne
    · subst hpe
      cases rest with
      | nil => exact Or.inl rfl
      | cons r0 rt =>
        right
        refine ⟨(r0 :: rt).dropLast, by simp, ?_⟩
        intro m hm
        exact hrest m ((List.dropLast_sublist (r0 :: rt)).subset hm)
  | prop nm v =>
    obtain ⟨_, _, hp⟩ := hf
    subst hp
    exact ⟨hi, by intro nm' pth' he; cases he⟩
  | nop =>
    obtain ⟨_, hp⟩ := hf
    subst hp
    exact ⟨hi, by intro nm' pth' he; cases he⟩
  | endT =>
    obtain ⟨_, _, hp⟩ := hf
    subst hp
    exact ⟨hi, by intro nm' pth' he; cases he⟩

/-- Every BeginNode token the decoder loop emits from an invariant state has
a well-formed path. -/
lemma decodeLoopF_begin_tokens (buf : List Nat) (hdr : Header) :
    ∀ (fuel off : Nat) (depth : Int) (parents : List (List Nat)),
      depth = (parents.length : Int) → parentsInv parents →
      ∀ nm pth, Token.beginNode nm pth ∈ (decodeLoopF buf hdr fuel off depth parents).1 →
        goodPath nm pth := by
  intro fuel
  induction fuel with
  | zero =>
    intro off depth parents hs hi nm pth hmem
    unfold decodeLoopF at hmem
    split_ifs at hmem <;> simp at hmem
  | succ n ih =>
    intro off depth parents hs hi nm pth hmem
    unfold decodeLoopF at hmem
    split_ifs at hmem with hc
    · revert hmem
      split
      · intro hmem; simp at hmem
      · rename_i t1 off1 depth1 parents1 hstep
        intro hmem
        dsimp only at hmem
        rcases List.mem_cons.mp hmem with heq | hmem'
        · exact (decodeStep_emit_inv buf hdr off depth parents t1 off1 depth1
            parents1 hstep hs hi).2 nm pth heq.symm
        · have hsync := decodeStep_emit_sync buf hdr off depth parents t1 off1
            depth1 parents1 hstep hs
          have hinv := (decodeStep_emit_inv buf hdr off depth parents t1 off1
            depth1 parents1 hstep hs hi).1
          exact ih off1 depth1 parents1 hsync.1 hinv nm pth hmem'
    · simp at hmem

/-- The decoder's ancestor-name stack (`parent_nodes`, `dtbiz.py` lines 124,
138, 153) replayed over an emitted token prefix: BeginNode pushes the node's
own name, EndNode pops, every other token leaves the stack unchanged. -/
def openNamesFrom : List (List Nat) → List Token → List (List Nat)
  | stk, [] => stk
  | stk, .beginNode nm _ :: ts => openNamesFrom (stk ++ [nm]) ts
  | stk, .endNode :: ts => openNamesFrom stk.dropLast ts
  | stk, .prop _ _ :: ts => openNamesFrom stk ts
  | stk, .nop :: ts => openNamesFrom stk ts
  | stk, .endT :: ts => openNamesFrom stk ts

/-- The names of the nodes still open after the token prefix `p` of a
decoded stream, bottom (root) first: exactly `parent_nodes` at that point of
the run. -/
def openNames (p : List Token) : List (List Nat) := openNamesFrom [] p

/-- However the decoder-loop output splits around an emitted BeginNode
token, the path that token carries was produced by `beginNodeCheck` from the
replayed ancestor-name stack of the preceding prefix — the actual open-node
names at that point — and that stack satisfies the stack invariant. -/
lemma decodeLoopF_prefix_paths (buf : List Nat) (hdr : Header) :
    ∀ (fuel off : Nat) (depth : Int) (parents : List (List Nat)),
      depth = (parents.length : Int) → parentsInv parents →
      ∀ (p : List Token) (nm pth : List Nat) (rest : List Token),
        (decodeLoopF buf hdr fuel off depth parents).1 =
          p ++ Token.beginNode nm pth :: rest →
        beginNodeCheck ((openNamesFrom parents p).length : Int)
          (openNamesFrom parents p ++ [nm]) nm = .ok pth ∧
        parentsInv (openNamesFrom parents p) := by
  intro fuel
  induction fuel with
  | zero =>
    intro off depth parents hs hi p nm pth rest hp
    unfold decodeLoopF at hp
    split_ifs at hp <;>
      (dsimp only at hp
       obtain ⟨-, h2⟩ := List.append_eq_nil.mp hp.symm
       exact absurd h2 (List.cons_ne_nil _ _))
  | succ n ih =>
    intro off depth parents hs hi p nm pth rest hp
    unfold decodeLoopF at hp
    split_ifs at hp with hc
    · revert hp
      split
      · intro hp
        dsimp only at hp
        obtain ⟨-, h2⟩ := List.append_eq_nil.mp hp.symm
        exact absurd h2 (List.cons_ne_nil _ _)
      · rename_i t1 off1 depth1 parents1 hstep
        intro hp
        dsimp only at hp
        cases p with
        | nil =>
          rw [List.nil_append] at hp
          injection hp with hq hp'
          subst hq
          have hf := (decodeStep_emit buf hdr off depth parents _ off1 depth1
            parents1 hstep).2
          obtain ⟨hp1, hd1, hbnc⟩ := hf
          refine ⟨?_, hi⟩
          show beginNodeCheck ((parents.length : Int)) (parents ++ [nm]) nm = .ok pth
          rw [← hs]
          exact hbnc
        | cons q p' =>
          rw [List.cons_append] at hp
          injection hp with hq hp'
          subst hq
          have hsync := decodeStep_emit_sync buf hdr off depth parents t1 off1
            depth1 parents1 hstep hs
          have hinv1 := (decodeStep_emit_inv buf hdr off depth parents t1 off1
            depth1 parents1 hstep hs hi).1
          have hih := ih off1 depth1 parents1 hsync.1 hinv1 p' nm pth rest hp'
          have hf := (decodeStep_emit buf hdr off depth parents t1 off1 depth1
            parents1 hstep).2
          cases t1 with
          | beginNode nm1 pth1 =>
            obtain ⟨hp1, -, -⟩ := hf
            simp only [openNamesFrom]
            rw [← hp1]
            exact hih
          | endNode =>
            obtain ⟨-, -, -, hp1⟩ := hf
            simp only [openNamesFrom]
            rw [← hp1]
            exact hih
          | prop nm1 v1 =>
            obtain ⟨-, -, hp1⟩ := hf
            simp only [openNamesFrom]
            rw [← hp1]
            exact hih
          | nop =>
            obtain ⟨-, hp1⟩ := hf
            simp only [openNamesFrom]
            rw [← hp1]
            exact hih
          | endT =>
            obtain ⟨-, -, hp1⟩ := hf
            simp only [openNamesFrom]
            rw [← hp1]
            exact hih
    · dsimp only at hp
      obtain ⟨-, h2⟩ := List.append_eq_nil.mp hp.symm
      exact absurd h2 (List.cons_ne_nil _ _)

/-- C3: wherever a BeginNode token occurs in the decoded stream — stream
`= p ++ [BeginNode nm pth] ++ rest` — its path is determined by the actual
ancestor names still open after the prefix `p` (the run's `parent_nodes`):
with an empty ancestor stack (depth 0) the name is empty and the path is
exactly `/`; otherwise the stack is the root's empty name followed by the
ancestor names `anc`, all nonempty and slash-free, and the path is `/`
followed by `anc ++ [nm]` joined by single `/` separators — the root's
empty name contributing no segment — so no path contains a doubled
slash. -/
theorem begin_node_paths (buf : List Nat) (hdr : Header) (p : List Token)
    (nm pth : List Nat) (rest : List Token)
    (h : (get_structure_tokens buf hdr).1 = p ++ Token.beginNode nm pth :: rest) :
    (openNames p = [] → nm = [] ∧ pth = [47]) ∧
    (openNames p ≠ [] → ∃ anc : List (List Nat),
      openNames p = [] :: anc ∧ (∀ m ∈ anc ++ [nm], m ≠ [] ∧ 47 ∉ m) ∧
      pth = 47 :: List.intercalate [47] (anc ++ [nm])) ∧
    noDoubleSlash pth = true := by
  have h' : (decodeLoopF buf hdr (hdr.off_dt_strings + 1) hdr.off_dt_struct
      0 []).1 = p ++ Token.beginNode nm pth :: rest := h
  obtain ⟨hbnc, hinv⟩ := decodeLoopF_prefix_paths buf hdr
    (hdr.off_dt_strings + 1) hdr.off_dt_struct 0 [] (by simp) (Or.inl rfl)
    p nm pth rest h'
  rcases beginNodeCheck_ok _ _ _ _ hbnc with ⟨hd0, hnm, hpth⟩ |
    ⟨hdne, hmatch, hpth⟩
  · have hPnil : openNames p = [] := by
      have hlen : (openNamesFrom [] p).length = 0 := by exact_mod_cast hd0
      exact List.length_eq_zero.mp hlen
    refine ⟨fun _ => ⟨hnm, hpth⟩, fun hne => absurd hPnil hne, ?_⟩
    rw [hpth]
    rfl
  · rcases hinv with hPnil | ⟨anc, hPanc, hanc⟩
    · rw [hPnil] at hdne
      simp at hdne
    · have hPanc' : openNames p = [] :: anc := hPanc
      have hnmg := pythonNameMatch_good nm hmatch
      have hmem : ∀ m ∈ anc ++ [nm], m ≠ [] ∧ 47 ∉ m := by
        intro m hm
        rcases List.mem_append.mp hm with h1 | h2
        · exact hanc m h1
        · simp at h2; subst h2; exact hnmg
      have hpth' : pth = 47 :: List.intercalate [47] (anc ++ [nm]) := by
        rw [hpth, hPanc, List.cons_append,
          intercalate_cons_of_ne_nil [] (anc ++ [nm]) (by simp)]
        simp
      have hgp : goodPath nm pth :=
        Or.inr ⟨anc ++ [nm], by simp, hmem, hpth', List.getLast?_concat anc⟩
      refine ⟨?_, fun _ => ⟨anc, hPanc', hmem, hpth'⟩, goodPath_noDS nm pth hgp⟩
      intro he
      rw [hPanc'] at he
      exact absurd he (List.cons_ne_nil _ _)

/-- A DTB with a valid header and nested nodes `/`, `/soc`, `/soc/uart@0`:
structure block `BEGIN ""`, `BEGIN "soc"`, `BEGIN "uart@0"`, three
`END_NODE`s, `END`. -/
def bufB : List Nat :=
  [208, 13, 254, 237, 0, 0, 0, 100, 0, 0, 0, 56, 0, 0, 0, 100, 0, 0, 0, 40,
   0, 0, 0, 17, 0, 0, 0, 16, 0, 0, 0, 0, 0, 0, 0, 0, 0, 0, 0, 44,
   0, 0, 0, 0, 0, 0, 0, 0, 0, 0, 0, 0, 0, 0, 0, 0,
   0, 0, 0, 1, 0, 0, 0, 0,
   0, 0, 0, 1, 115, 111, 99, 0,
   0, 0, 0, 1, 117, 97, 114, 116, 64, 48, 0, 0,
   0, 0, 0, 2, 0, 0, 0, 2, 0, 0, 0, 2, 0, 0, 0, 9]

/-- The header of `bufB`. -/
def hdrB : Header := ⟨0xD00DFEED, 100, 56, 100, 40, 17, 16, 0, 0, 44⟩

/-- Witness for C3 at the depth-2 `uart@0` node of `bufB`: the prefix leaves
the root's empty name and the ancestor name `soc` open, so `anc = ["soc"]`
and the path is `/soc/uart@0` — `/` followed by the join of the ancestor
name and the node's own name. -/
theorem begin_node_paths_witness :
    (openNames [Token.beginNode [] [47],
        Token.beginNode [115, 111, 99] [47, 115, 111, 99]] = [] →
      [117, 97, 114, 116, 64, 48] = ([] : List Nat) ∧
      [47, 115, 111, 99, 47, 117, 97, 114, 116, 64, 48] = [47]) ∧
    (openNames [Token.beginNode [] [47],
        Token.beginNode [115, 111, 99] [47, 115, 111, 99]] ≠ [] →
      ∃ anc : List (List Nat),
        openNames [Token.beginNode [] [47],
          Token.beginNode [115, 111, 99] [47, 115, 111, 99]] = [] :: anc ∧
        (∀ m ∈ anc ++ [[117, 97, 114, 116, 64, 48]], m ≠ [] ∧ 47 ∉ m) ∧
        [47, 115, 111, 99, 47, 117, 97, 114, 116, 64, 48] =
          47 :: List.intercalate [47] (anc ++ [[117, 97, 114, 116, 64, 48]])) ∧
    noDoubleSlash [47, 115, 111, 99, 47, 117, 97, 114, 116, 64, 48] = true :=
  begin_node_paths bufB hdrB
    [Token.beginNode [] [47], Token.beginNode [115, 111, 99] [47, 115, 111, 99]]
    [117, 97, 114, 116, 64, 48]
    [47, 115, 111, 99, 47, 117, 97, 114, 116, 64, 48]
    [Token.endNode, Token.endNode, Token.endNode, Token.endT] (by rfl)

/-- C4: evaluation at the failing input.  `bufNl`'s header validates and its
structure block holds a node named `"soc\n"` (bytes `[115,111,99,10]`): the
name does not match the claimed pattern under its usual fully-anchored
reading (`specNameMatch`), yet the decoder accepts it — Python's `$` also
matches just before a trailing newline — and yields the token with path
`"/soc\n"` and no error.  A name containing a space is still rejected with
`invalidNodeName`, and `uart@10000000` is still accepted. -/
theorem invalid_node_name_divergence :
    get_header bufNl = .ok hdrNl ∧
    (get_structure_tokens bufNl hdrNl).1 =
      [.beginNode [] [47],
       .beginNode [115, 111, 99, 10] [47, 115, 111, 99, 10],
       .endNode, .endNode, .endT] ∧
    (get_structure_tokens bufNl hdrNl).2.1 = none ∧
    specNameMatch [115, 111, 99, 10] = false ∧
    pythonNameMatch [115, 111, 99, 10] = true ∧
    beginNodeCheck 1 [[], [117, 97, 114, 116, 32, 48]] [117, 97, 114, 116, 32, 48] =
      .error .invalidNodeName ∧
    beginNodeCheck 1
      [[], [117, 97, 114, 116, 64, 49, 48, 48, 48, 48, 48, 48, 48, 48]]
      [117, 97, 114, 116, 64, 49, 48, 48, 48, 48, 48, 48, 48, 48] =
      .ok [47, 117, 97, 114, 116, 64, 49, 48, 48, 48, 48, 48, 48, 48, 48] :=
  ⟨rfl, rfl, rfl, rfl, rfl, rfl, rfl⟩

/-- Python's `range(a, b, 16)` over naturals. -/
def range16 (a b : Nat) : List Nat :=
  (List.range ((b - a + 15) / 16)).map (fun k => a + 16 * k)

/-- The loop body of `get_reserve_entries` (`dtbiz.py` lines 112-118) over
the list of record offsets: read two 64-bit values per record, stop at (and
exclude) the first zero/zero record.  The `Bool` is `true` when a
`read_uint64` raised `IndexError` (record extending past the buffer). -/
def reserveGo (buf : List Nat) : List Nat → List (Nat × Nat) × Bool
  | [] => ([], false)
  | off :: rest =>
    match read_uint64 (slice buf off (off + 8)),
        read_uint64 (slice buf (off + 8) (off + 16)) with
    | some a, some s =>
      if a = 0 ∧ s = 0 then ([], false)
      else
        ((a, s) :: (reserveGo buf rest).1, (reserveGo buf rest).2)
    | _, _ => ([], true)

/-- Embeds the generator `get_reserve_entries` (`dtbiz.py` lines 112-118):
`for off in range(hdr.off_mem_rsvmap, hdr.off_dt_struct, 16)`. -/
def get_reserve_entries (buf : List Nat) (hdr : Header) :
    List (Nat × Nat) × Bool :=
  reserveGo buf (range16 hdr.off_mem_rsvmap hdr.off_dt_struct)

/-- The full 16-byte record starting at `off`, when it lies inside the
buffer. -/
def reserveRecord (buf : List Nat) (off : Nat) : Option (Nat × Nat) :=
  match read_uint64 (slice buf off (off + 8)),
      read_uint64 (slice buf (off + 8) (off + 16)) with
  | some a, some s => some (a, s)
  | _, _ => none

/-- A readable record that is not the zero/zero terminator. -/
def keepEntry : Option (Nat × Nat) → Bool
  | some (a, s) => !(a == 0 && s == 0)
  | none => false

lemma reserveGo_characterized (buf : List Nat) (offs : List Nat) :
    (reserveGo buf offs).1 =
      ((offs.map (reserveRecord buf)).takeWhile keepEntry).map
        (fun r => r.getD (0, 0)) := by
  induction offs with
  | nil => rfl
  | cons off rest ih =>
    show (reserveGo buf (off :: rest)).1 = _
    unfold reserveGo
    cases h1 : read_uint64 (slice buf off (off + 8)) with
    | none => simp [reserveRecord, keepEntry, h1]
    | some a =>
      cases h2 : read_uint64 (slice buf (off + 8) (off + 16)) with
      | none => simp [reserveRecord, keepEntry, h1, h2]
      | some s =>
        by_cases hz : a = 0 ∧ s = 0
        · simp [reserveRecord, keepEntry, h1, h2, hz]
        · dsimp only
          rw [if_neg hz]
          have hk : keepEntry (some (a, s)) = true := by
            simp [keepEntry]
            omega
          simp only [List.map_cons, reserveRecord, h1, h2]
          rw [List.takeWhile_cons_of_pos hk]
          simp [ih]

/-- C8 amended: the reader walks record offsets `rsv, rsv+16, …` strictly
below the structure offset, reading each started record *in full* — 16
bytes, possibly extending past the structure offset (when the gap is not a
multiple of 16) or even past the buffer (which aborts it) — and yields the
records before the first zero/zero terminator. -/
theorem reserve_entries_characterized (buf : List Nat) (hdr : Header) :
    (get_reserve_entries buf hdr).1 =
      (((range16 hdr.off_mem_rsvmap hdr.off_dt_struct).map
          (reserveRecord buf)).takeWhile keepEntry).map
        (fun r => r.getD (0, 0)) ∧
    ∀ off ∈ range16 hdr.off_mem_rsvmap hdr.off_dt_struct,
      off < hdr.off_dt_struct := by
  constructor
  · exact reserveGo_characterized buf (range16 hdr.off_mem_rsvmap hdr.off_dt_struct)
  · intro off hoff
    simp only [range16, List.mem_map, List.mem_range] at hoff
    obtain ⟨k, hk, rfl⟩ := hoff
    have h16 := Nat.div_mul_le_self (hdr.off_dt_struct - hdr.off_mem_rsvmap + 15) 16
    omega

/-- A valid DTB whose reservation gap (40..48) is only 8 bytes, so the
single 16-byte reservation record read at offset 40 extends into the
structure block (at 48) and beyond. -/
def bufR1 : List Nat :=
  [208, 13, 254, 237, 0, 0, 0, 56, 0, 0, 0, 48, 0, 0, 0, 52, 0, 0, 0, 40,
   0, 0, 0, 17, 0, 0, 0, 16, 0, 0, 0, 0, 0, 0, 0, 0, 0, 0, 0, 4,
   0, 0, 0, 0, 0, 0, 0, 0,
   0, 0, 0, 9,
   0, 0, 0, 7]

/-- Identical to `bufR1` in every byte below the structure offset 48;
differs only at byte 55. -/
def bufR2 : List Nat :=
  [208, 13, 254, 237, 0, 0, 0, 56, 0, 0, 0, 48, 0, 0, 0, 52, 0, 0, 0, 40,
   0, 0, 0, 17, 0, 0, 0, 16, 0, 0, 0, 0, 0, 0, 0, 0, 0, 0, 0, 4,
   0, 0, 0, 0, 0, 0, 0, 0,
   0, 0, 0, 9,
   0, 0, 0, 5]

/-- The (identical, valid) header of `bufR1` and `bufR2`. -/
def hdrR : Header := ⟨0xD00DFEED, 56, 48, 52, 40, 17, 16, 0, 0, 4⟩

/-- C8 counterexample: both buffers have the same valid header and agree on
every byte below the structure offset (48), yet the Reservation Table
Reader emits different entries — the 16-byte record starting at offset 40
is read through bytes 48..55, at and beyond the structure offset. -/
theorem reserve_reads_beyond_struct_counterexample :
    bufR1.take 48 = bufR2.take 48 ∧
    hdrR.off_dt_struct = 48 ∧
    get_header bufR1 = .ok hdrR ∧
    get_header bufR2 = .ok hdrR ∧
    get_reserve_entries bufR1 hdrR = ([(0, 38654705671)], false) ∧
    get_reserve_entries bufR2 hdrR = ([(0, 38654705669)], false) ∧
    get_reserve_entries bufR1 hdrR ≠ get_reserve_entries bufR2 hdrR :=
  ⟨by decide, rfl, rfl, rfl, rfl, rfl, by decide⟩

/-- Last-write-wins insertion into an association list, as Python's
`dict[key] = value` behaves (value overwritten in place on a repeated key,
appended否则 at the end). -/
def upsert : List (List Nat × List Nat) → List Nat → List Nat →
    List (List Nat × List Nat)
  | [], k, v => [(k, v)]
  | (a, b) :: t, k, v =>
    if a = k then (a, v) :: t else (a, b) :: upsert t k v

/-- A devicetree node (`dtbiz.py` line 238): name, absolute path, property
map (association list in insertion order), ordered children. -/
inductive Node where
  | mk (name path : List Nat) (props : List (List Nat × List Nat))
      (children : List Node)

/-- Append a completed child as the last child (`stack[-2].children.append`). -/
def addChild : Node → Node → Node
  | .mk nm pth props cs, c => .mk nm pth props (cs ++ [c])

/-- Set a property on a node (`stack[-1].props[t.name] = t.value`). -/
def setProp : Node → List Nat → List Nat → Node
  | .mk nm pth props cs, k, v => .mk nm pth (upsert props k v) cs

/-- Failures of `to_graph`: `popEmpty` models `stack.pop()` on an empty
list, `propNoNode` models `stack[-1]` on an empty list, `emptyStack` models
the final `stack[0]` on an empty list — all Python `IndexError`s. -/
inductive GErr where
  | popEmpty
  | propNoNode
  | emptyStack
deriving DecidableEq

/-- One iteration of the loop of `to_graph` (`dtbiz.py` lines 243-253); the
stack is kept top-first (Python's `stack[-1]` is the head here, Python's
`stack[0]` is the last element). -/
def graphStep (stk : List Node) (t : Token) : Except GErr (List Node) :=
  match t with
  | .beginNode nm pth => .ok (.mk nm pth [] [] :: stk)
  | .endNode =>
    match stk with
    | [] => .error .popEmpty
    | [x] => .ok [x]
    | c :: p :: rest => .ok (addChild p c :: rest)
  | .prop nm v =>
    match stk with
    | [] => .error .propNoNode
    | top :: rest => .ok (setProp top nm v :: rest)
  | _ => .ok stk

/-- The stack left by the loop of `to_graph`. -/
def graphStack (tokens : List Token) : Except GErr (List Node) :=
  tokens.foldlM graphStep []

/-- Embeds `to_graph` (`dtbiz.py` lines 241-255): run the loop and return
Python's `stack[0]` (the bottom of the stack — here, the last element). -/
def to_graph (tokens : List Token) : Except GErr Node :=
  match graphStack tokens with
  | .error e => .error e
  | .ok stk =>
    match stk.getLast? with
    | some n => .ok n
    | none => .error .emptyStack

/-- C6 counterexample: after `BEGIN "" , BEGIN "soc", END` the loop's stack
still holds two in-progress nodes — not exactly the root — yet `to_graph`
returns the root node (with the unclosed child silently dropped) instead of
failing. -/
theorem internal_inconsistency_counterexample :
    graphStack [Token.beginNode [] [47],
        Token.beginNode [115, 111, 99] [47, 115, 111, 99], Token.endT] =
      .ok [Node.mk [115, 111, 99] [47, 115, 111, 99] [] [],
        Node.mk [] [47] [] []] ∧
    to_graph [Token.beginNode [] [47],
        Token.beginNode [115, 111, 99] [47, 115, 111, 99], Token.endT] =
      .ok (Node.mk [] [47] [] []) :=
  ⟨rfl, rfl⟩

lemma foldlM_graphStep_replicate (nm pth : List Nat) :
    ∀ (n : Nat) (stk : List Node),
      List.foldlM graphStep stk (List.replicate n (Token.beginNode nm pth)) =
        .ok (List.replicate n (Node.mk nm pth [] []) ++ stk) := by
  intro n
  induction n with
  | zero => intro stk; rfl
  | succ m ih =>
    intro stk
    show List.foldlM graphStep stk
        (Token.beginNode nm pth :: List.replicate m (Token.beginNode nm pth)) = _
    rw [List.foldlM_cons]
    show List.foldlM graphStep (Node.mk nm pth [] [] :: stk) _ = _
    rw [ih (Node.mk nm pth [] [] :: stk)]
    congr 1
    rw [List.replicate_succ' m (Node.mk nm pth [] [])]
    simp


lemma foldlM_graphStep_cons_ok (stk stk' : List Node) (t : Token)
    (ts : List Token) (h : graphStep stk t = .ok stk') :
    List.foldlM graphStep stk (t :: ts) = List.foldlM graphStep stk' ts := by
  rw [List.foldlM_cons, h]
  rfl

/-- C6 amended: the Tree Builder performs no final stack check: for any
number `n` of unclosed `BEGIN "soc"` nodes left on the stack at the End of
the stream, `to_graph` still returns the bare root node without error (the
unclosed nodes are silently dropped); it fails only when the final stack is
empty (the empty token stream), with the `stack[0]` `IndexError`. -/
theorem tree_builder_no_final_check (n : Nat) :
    to_graph (Token.beginNode [] [47] ::
        (List.replicate n (Token.beginNode [115, 111, 99] [47, 115, 111, 99]) ++
          [Token.endT])) = .ok (Node.mk [] [47] [] []) ∧
    to_graph ([] : List Token) = .error .emptyStack := by
  constructor
  · have hstack : graphStack (Token.beginNode [] [47] ::
        (List.replicate n (Token.beginNode [115, 111, 99] [47, 115, 111, 99]) ++
          [Token.endT])) =
        .ok (List.replicate n (Node.mk [115, 111, 99] [47, 115, 111, 99] [] []) ++
          [Node.mk [] [47] [] []]) := by
      unfold graphStack
      rw [foldlM_graphStep_cons_ok [] [Node.mk [] [47] [] []]
          (Token.beginNode [] [47]) _ rfl,
        List.foldlM_append,
        foldlM_graphStep_replicate [115, 111, 99] [47, 115, 111, 99] n
          [Node.mk [] [47] [] []]]
      show List.foldlM graphStep
        (List.replicate n (Node.mk [115, 111, 99] [47, 115, 111, 99] [] []) ++
          [Node.mk [] [47] [] []]) [Token.endT] = _
      rw [foldlM_graphStep_cons_ok _ _ Token.endT [] rfl]
      rfl
    unfold to_graph
    rw [hstack]
    show (match (List.replicate n
        (Node.mk [115, 111, 99] [47, 115, 111, 99] [] []) ++
        [Node.mk [] [47] [] []]).getLast? with
      | some nd => Except.ok nd
      | none => Except.error GErr.emptyStack) = Except.ok (Node.mk [] [47] [] [])
    rw [List.getLast?_concat]
  · rfl

/-- Recognizer for Nop tokens. -/
def isNopToken : Token → Bool
  | .nop => true
  | _ => false

lemma foldlM_graphStep_filter_nop (ts : List Token) :
    ∀ stk : List Node,
      List.foldlM graphStep stk ts =
        List.foldlM graphStep stk (ts.filter (fun t => !isNopToken t)) := by
  induction ts with
  | nil => intro stk; rfl
  | cons t rest ih =>
    intro stk
    cases t with
    | nop =>
      show List.foldlM graphStep stk (Token.nop :: rest) =
        List.foldlM graphStep stk ((Token.nop :: rest).filter (fun t => !isNopToken t))
      rw [foldlM_graphStep_cons_ok stk stk Token.nop rest rfl]
      have : (Token.nop :: rest).filter (fun t => !isNopToken t) =
          rest.filter (fun t => !isNopToken t) := by
        simp [List.filter_cons, isNopToken]
      rw [this]
      exact ih stk
    | beginNode nm pth =>
      rw [show (Token.beginNode nm pth :: rest).filter (fun t => !isNopToken t) =
          Token.beginNode nm pth :: rest.filter (fun t => !isNopToken t) from by
        simp [List.filter_cons, isNopToken]]
      rw [List.foldlM_cons, List.foldlM_cons]
      show (List.foldlM graphStep (Node.mk nm pth [] [] :: stk) rest : Except GErr _) = _
      exact ih _
    | endNode =>
      rw [show (Token.endNode :: rest).filter (fun t => !isNopToken t) =
          Token.endNode :: rest.filter (fun t => !isNopToken t) from by
        simp [List.filter_cons, isNopToken]]
      rw [List.foldlM_cons, List.foldlM_cons]
      cases hstep : graphStep stk Token.endNode with
      | error e => rfl
      | ok stk' =>
        show (List.foldlM graphStep stk' rest : Except GErr _) = _
        exact ih _
    | prop nm v =>
      rw [show (Token.prop nm v :: rest).filter (fun t => !isNopToken t) =
          Token.prop nm v :: rest.filter (fun t => !isNopToken t) from by
        simp [List.filter_cons, isNopToken]]
      rw [List.foldlM_cons, List.foldlM_cons]
      cases hstep : graphStep stk (Token.prop nm v) with
      | error e => rfl
      | ok stk' =>
        show (List.foldlM graphStep stk' rest : Except GErr _) = _
        exact ih _
    | endT =>
      rw [show (Token.endT :: rest).filter (fun t => !isNopToken t) =
          Token.endT :: rest.filter (fun t => !isNopToken t) from by
        simp [List.filter_cons, isNopToken]]
      rw [foldlM_graphStep_cons_ok stk stk Token.endT _ rfl,
        foldlM_graphStep_cons_ok stk stk Token.endT _ rfl]
      exact ih _

/-- C10: the Tree Builder's output is insensitive to Nop tokens — any two
token sequences that agree after erasing Nops build the same result — and a
Nop or End token leaves the node stack (hence every property map and
children list) unchanged. -/
theorem to_graph_nop_insensitive :
    (∀ ts1 ts2 : List Token,
      ts1.filter (fun t => !isNopToken t) = ts2.filter (fun t => !isNopToken t) →
      to_graph ts1 = to_graph ts2) ∧
    (∀ stk : List Node,
      graphStep stk Token.nop = .ok stk ∧ graphStep stk Token.endT = .ok stk) := by
  constructor
  · intro ts1 ts2 h
    unfold to_graph graphStack
    rw [foldlM_graphStep_filter_nop ts1, foldlM_graphStep_filter_nop ts2, h]
  · intro stk
    exact ⟨rfl, rfl⟩

/-- Witness for C10: inserting Nops around the root node changes nothing. -/
theorem to_graph_nop_insensitive_witness :
    to_graph [Token.nop, Token.beginNode [] [47], Token.nop, Token.endT] =
      to_graph [Token.beginNode [] [47], Token.endT] ∧
    graphStep [] Token.nop = .ok [] :=
  ⟨to_graph_nop_insensitive.1 _ _ rfl, (to_graph_nop_insensitive.2 []).1⟩

/-- Failures of the symbol pass: `stackUnderflow` models
`path_stack.pop()` on an empty list, `propNoStack` models `path_stack[-1]`
on an empty list (both `IndexError`), `malformedSymbolValue` the
`assert index >= 0` of `get_symbols`. -/
inductive SymErr where
  | stackUnderflow
  | propNoStack
  | malformedSymbolValue
deriving DecidableEq

/-- The byte string `"/__symbols__"`. -/
def SYMBOLS_PATH : List Nat :=
  [47, 95, 95, 115, 121, 109, 98, 111, 108, 115, 95, 95]

/-- The loop of `get_props_of_node` (`dtbiz.py` lines 194-202): track the
path stack (bottom-first, as in the source; `path_stack[-1]` is the last
element) and collect, in order, the Property tokens seen while the innermost
node's path equals `path`. -/
def propsLoop (path : List Nat) :
    List Token → List (List Nat) → Except SymErr (List (List Nat × List Nat))
  | [], _ => .ok []
  | t :: ts, stk =>
    match t with
    | .beginNode _ p => propsLoop path ts (stk ++ [p])
    | .endNode =>
      if stk = [] then .error .stackUnderflow
      else propsLoop path ts stk.dropLast
    | .prop nm v =>
      match stk.getLast? with
      | none => .error .propNoStack
      | some topPath =>
        if topPath = path then
          match propsLoop path ts stk with
          | .error e => .error e
          | .ok l => .ok ((nm, v) :: l)
        else propsLoop path ts stk
    | _ => propsLoop path ts stk

/-- Embeds `get_props_of_node` (`dtbiz.py` lines 188-202) for a string
`path` argument (the only call in scope passes the string
`"/__symbols__"`; the `isinstance(path, bytes)` branch is unused there). -/
def get_props_of_node (tokens : List Token) (path : List Nat) :
    Except SymErr (List (List Nat × List Nat)) :=
  propsLoop path tokens []

/-- The accumulation loop of `get_symbols` (`dtbiz.py` lines 206-211):
`res[prop.name] = prop.value[:prop.value.find(b"\0")]`, failing when a value
has no NUL byte. -/
def symFold : List (List Nat × List Nat) → List (List Nat × List Nat) →
    Except SymErr (List (List Nat × List Nat))
  | [], acc => .ok acc
  | (nm, v) :: rest, acc =>
    match v.findIdx? (· == 0) with
    | none => .error .malformedSymbolValue
    | some i => symFold rest (upsert acc nm (v.take i))

/-- Embeds `get_symbols` (`dtbiz.py` lines 205-211). -/
def get_symbols (tokens : List Token) :
    Except SymErr (List (List Nat × List Nat)) :=
  match get_props_of_node tokens SYMBOLS_PATH with
  | .error e => .error e
  | .ok props => symFold props []

/-- The symbol table entry for a label, `none` when the pass fails or the
label is absent. -/
def symLookup (tokens : List Token) (k : List Nat) : Option (List Nat) :=
  match get_symbols tokens with
  | .ok m => m.lookup k
  | .error _ => none

/-- Well-nestedness of a token stream relative to a starting depth: an
EndNode or a Property token never occurs with no enclosing node.  Streams
produced by a successful decoder run satisfy this. -/
def okStream : List Token → Int → Bool
  | [], _ => true
  | t :: ts, d =>
    match t with
    | .beginNode _ _ => okStream ts (d + 1)
    | .endNode => decide (1 ≤ d) && okStream ts (d - 1)
    | .prop _ _ => decide (1 ≤ d) && okStream ts d
    | _ => okStream ts d

lemma getLast?_mem_list (l : List (List Nat)) (a : List Nat)
    (h : l.getLast? = some a) : a ∈ l := by
  obtain ⟨hne, rfl⟩ := List.mem_getLast?_eq_getLast (l := l) (x := a) (by simp [h])
  exact List.getLast_mem hne

lemma propsLoop_ok (path : List Nat) (tokens : List Token) :
    ∀ stk : List (List Nat), okStream tokens (stk.length : Int) = true →
      ∃ l, propsLoop path tokens stk = .ok l := by
  induction tokens with
  | nil => intro stk _; exact ⟨[], rfl⟩
  | cons t ts ih =>
    intro stk hok
    cases t with
    | beginNode nm p =>
      have hok0 : okStream ts ((stk.length : Int) + 1) = true := hok
      have hok' : okStream ts (((stk ++ [p]).length : Nat) : Int) = true := by
        have hlen : (((stk ++ [p]).length : Nat) : Int) = (stk.length : Int) + 1 := by
          simp
        rw [hlen]
        exact hok0
      exact ih (stk ++ [p]) hok'
    | endNode =>
      have hok0 : (decide (1 ≤ (stk.length : Int)) &&
          okStream ts ((stk.length : Int) - 1)) = true := hok
      simp only [Bool.and_eq_true, decide_eq_true_eq] at hok0
      have hne : stk ≠ [] := by
        intro he
        rw [he] at hok0
        simp at hok0
      have hlen : ((stk.dropLast.length : Nat) : Int) = (stk.length : Int) - 1 := by
        rw [List.length_dropLast]
        have : 1 ≤ stk.length := List.length_pos.mpr hne
        omega
      obtain ⟨l, hl⟩ := ih stk.dropLast (by rw [hlen]; exact hok0.2)
      refine ⟨l, ?_⟩
      simp only [propsLoop]
      rw [if_neg hne]
      exact hl
    | prop nm v =>
      have hok0 : (decide (1 ≤ (stk.length : Int)) &&
          okStream ts (stk.length : Int)) = true := hok
      simp only [Bool.and_eq_true, decide_eq_true_eq] at hok0
      have hne : stk ≠ [] := by
        intro he
        rw [he] at hok0
        simp at hok0
      obtain ⟨l, hl⟩ := ih stk hok0.2
      obtain ⟨top, htop⟩ : ∃ top, stk.getLast? = some top := by
        cases hg : stk.getLast? with
        | none => exact absurd (List.getLast?_eq_none_iff.mp hg) hne
        | some top => exact ⟨top, rfl⟩
      refine ⟨if top = path then (nm, v) :: l else l, ?_⟩
      simp only [propsLoop, htop]
      by_cases hp : top = path
      · rw [if_pos hp, hl, if_pos hp]
      · rw [if_neg hp, hl, if_neg hp]
    | nop =>
      exact ih stk hok
    | endT =>
      exact ih stk hok

lemma propsLoop_nil (path : List Nat) (tokens : List Token) :
    ∀ (stk : List (List Nat)) (l : List (List Nat × List Nat)),
      propsLoop path tokens stk = .ok l →
      (∀ nm p, Token.beginNode nm p ∈ tokens → p ≠ path) →
      (∀ x ∈ stk, x ≠ path) → l = [] := by
  induction tokens with
  | nil =>
    intro stk l h _ _
    simpa [propsLoop] using h.symm
  | cons t ts ih =>
    intro stk l h htok hstk
    have htok' : ∀ nm p, Token.beginNode nm p ∈ ts → p ≠ path :=
      fun nm p hm => htok nm p (List.mem_cons_of_mem t hm)
    cases t with
    | beginNode nm p =>
      have hp : p ≠ path := htok nm p (List.mem_cons_self _ _)
      refine ih (stk ++ [p]) l h htok' ?_
      intro x hx
      rcases List.mem_append.mp hx with hx1 | hx2
      · exact hstk x hx1
      · simp at hx2; subst hx2; exact hp
    | endNode =>
      simp only [propsLoop] at h
      split_ifs at h with he
      exact ih stk.dropLast l h htok'
        (fun x hx => hstk x ((List.dropLast_sublist stk).subset hx))
    | prop nm v =>
      simp only [propsLoop] at h
      cases hg : stk.getLast? with
      | none => rw [hg] at h; simp at h
      | some top =>
        rw [hg] at h
        dsimp only at h
        have htop : top ≠ path := hstk top (getLast?_mem_list stk top hg)
        rw [if_neg htop] at h
        exact ih stk l h htok' hstk
    | nop =>
      exact ih stk l h htok' hstk
    | endT =>
      exact ih stk l h htok' hstk

lemma findIdx0_none (v : List Nat) (h : (0 : Nat) ∉ v) :
    ∀ i, List.findIdx? (· == 0) v i = none := by
  induction v with
  | nil => intro i; rfl
  | cons a t ih =>
    intro i
    have ha : ¬ a = 0 := fun he => h (by simp [he])
    have ht : (0 : Nat) ∉ t := fun hm => h (by simp [hm])
    rw [List.findIdx?_cons]
    simp only [ha, beq_iff_eq, if_false, decide_eq_true_eq]
    exact ih ht (i + 1)

lemma findIdx0_take (v : List Nat) (h : (0 : Nat) ∈ v) :
    ∀ i, ∃ j, List.findIdx? (· == 0) v i = some (i + j) ∧
      v.take j = v.takeWhile (fun b => b != 0) := by
  induction v with
  | nil => exact absurd h (by simp)
  | cons a t ih =>
    intro i
    by_cases ha : a = 0
    · subst ha
      refine ⟨0, ?_, ?_⟩
      · rw [List.findIdx?_cons]
        simp
      · simp [List.takeWhile_cons]
    · have ht : (0 : Nat) ∈ t := by
        rcases List.mem_cons.mp h with h0 | h0
        · exact absurd h0.symm ha
        · exact h0
      obtain ⟨j, hj, hw⟩ := ih ht (i + 1)
      refine ⟨j + 1, ?_, ?_⟩
      · rw [List.findIdx?_cons]
        rw [if_neg (by simpa using ha), hj]
        congr 1
        omega
      · rw [List.take_succ_cons, List.takeWhile_cons_of_pos (by simpa using ha), hw]

lemma lookup_upsert_self (m : List (List Nat × List Nat)) (k v : List Nat) :
    (upsert m k v).lookup k = some v := by
  induction m with
  | nil => simp [upsert, List.lookup]
  | cons p t ih =>
    obtain ⟨a, b⟩ := p
    by_cases hak : a = k
    · subst hak
      simp [upsert, List.lookup]
    · have hba : (k == a) = false := by simp [Ne.symm hak]
      simp only [upsert]
      rw [if_neg hak, List.lookup_cons, hba]
      exact ih

lemma lookup_upsert_ne (m : List (List Nat × List Nat)) (k v k' : List Nat)
    (h : k ≠ k') : (upsert m k v).lookup k' = m.lookup k' := by
  induction m with
  | nil =>
    have hba : (k' == k) = false := by simp [Ne.symm h]
    simp only [upsert]
    rw [List.lookup_cons, hba]
  | cons p t ih =>
    obtain ⟨a, b⟩ := p
    by_cases hak : a = k
    · subst hak
      have hup : upsert ((a, b) :: t) a v = (a, v) :: t := by simp [upsert]
      have hba : (k' == a) = false := by simp [Ne.symm h]
      rw [hup, List.lookup_cons, List.lookup_cons, hba]
    · simp only [upsert]
      rw [if_neg hak]
      rw [List.lookup_cons, List.lookup_cons]
      by_cases hk' : k' = a
      · simp [hk']
      · have hba : (k' == a) = false := by simp [hk']
        rw [hba]
        exact ih

lemma symFold_err (props : List (List Nat × List Nat)) :
    ∀ pr ∈ props, (0 : Nat) ∉ pr.2 →
      ∀ acc, symFold props acc = .error .malformedSymbolValue := by
  induction props with
  | nil => intro pr hpr; exact absurd hpr (List.not_mem_nil pr)
  | cons q rest ih =>
    intro pr hpr hz acc
    obtain ⟨nm, v⟩ := q
    rcases List.mem_cons.mp hpr with h0 | h0
    · have hzv : (0 : Nat) ∉ v := by rw [h0] at hz; exact hz
      simp only [symFold]
      rw [findIdx0_none v hzv 0]
    · cases hf : v.findIdx? (· == 0) with
      | none => simp only [symFold]; rw [hf]
      | some i =>
        simp only [symFold]
        rw [hf]
        exact ih pr h0 hz _

lemma symFold_ok (props : List (List Nat × List Nat)) :
    (∀ pr ∈ props, (0 : Nat) ∈ pr.2) →
    ∀ acc, ∃ m, symFold props acc = .ok m ∧
      (∀ k, (∀ pr ∈ props, pr.1 ≠ k) → m.lookup k = acc.lookup k) ∧
      ((props.map Prod.fst).Nodup →
        ∀ pr ∈ props, m.lookup pr.1 = some (pr.2.takeWhile (· != 0))) := by
  induction props with
  | nil =>
    intro _ acc
    exact ⟨acc, rfl, fun k _ => rfl,
      fun _ pr hpr => absurd hpr (List.not_mem_nil pr)⟩
  | cons q rest ih =>
    intro hall acc
    obtain ⟨nm, v⟩ := q
    have hv : (0 : Nat) ∈ v := hall (nm, v) (List.mem_cons_self _ _)
    obtain ⟨j, hj, hw⟩ := findIdx0_take v hv 0
    rw [Nat.zero_add] at hj
    have hall' : ∀ pr ∈ rest, (0 : Nat) ∈ pr.2 :=
      fun pr hpr => hall pr (List.mem_cons_of_mem _ hpr)
    obtain ⟨m, h1, h2, h3⟩ := ih hall' (upsert acc nm (v.take j))
    refine ⟨m, ?_, ?_, ?_⟩
    · simp only [symFold]
      rw [hj]
      exact h1
    · intro k hk
      have hnmk : nm ≠ k := hk (nm, v) (List.mem_cons_self _ _)
      have hrest : ∀ pr ∈ rest, pr.1 ≠ k :=
        fun pr hpr => hk pr (List.mem_cons_of_mem _ hpr)
      rw [h2 k hrest]
      exact lookup_upsert_ne acc nm (v.take j) k hnmk
    · intro hnd pr hpr
      simp only [List.map_cons, List.nodup_cons] at hnd
      obtain ⟨hnotin, hnd'⟩ := hnd
      rcases List.mem_cons.mp hpr with h0 | h0
      · subst h0
        dsimp only
        have hrest : ∀ pr' ∈ rest, pr'.1 ≠ nm := by
          intro pr' hpr' he
          exact hnotin (he ▸ List.mem_map_of_mem Prod.fst hpr')
        rw [h2 nm hrest, lookup_upsert_self, hw]
      · exact h3 hnd' pr h0

/-- A well-nested stream with no `/__symbols__` node (names `""` and `soc`). -/
def symToksA : List Token :=
  [.beginNode [] [47],
   .beginNode [115, 111, 99] [47, 115, 111, 99],
   .endNode, .endNode, .endT]

/-- A stream with a `/__symbols__` node carrying one property `led0` whose
value is the NUL-terminated string `/soc/gpio@0`. -/
def symToksB : List Token :=
  [.beginNode [] [47],
   .beginNode [95, 95, 115, 121, 109, 98, 111, 108, 115, 95, 95] SYMBOLS_PATH,
   .prop [108, 101, 100, 48]
     [47, 115, 111, 99, 47, 103, 112, 105, 111, 64, 48, 0],
   .endNode, .endNode, .endT]

/-- A stream whose `/__symbols__` node has a property value with no NUL. -/
def symToksC : List Token :=
  [.beginNode [] [47],
   .beginNode [95, 95, 115, 121, 109, 98, 111, 108, 115, 95, 95] SYMBOLS_PATH,
   .prop [108, 101, 100, 48] [47, 115, 111, 99],
   .endNode, .endNode, .endT]

/-- C7: the Symbol Index (`get_symbols`, `dtbiz.py` lines 205-211, via
`get_props_of_node`, lines 188-202).  (1) On a well-nested stream with no
BeginNode whose path is `/__symbols__`, it returns the empty table without
error.  (2) If the property pass returns `props` and every value contains a
NUL byte, `get_symbols` succeeds, and when the property names are distinct
each property name is mapped to its value's bytes up to the first NUL
(e.g. `led0` with value `/soc/gpio@0\0` maps to `/soc/gpio@0`).  (3) If any
collected property value contains no NUL byte, `get_symbols` fails with
`MalformedSymbolValue`. -/
theorem get_symbols_correct (tokens : List Token) :
    (okStream tokens 0 = true →
      (∀ nm p, Token.beginNode nm p ∈ tokens → p ≠ SYMBOLS_PATH) →
      get_symbols tokens = .ok []) ∧
    (∀ props, get_props_of_node tokens SYMBOLS_PATH = .ok props →
      ((∀ pr ∈ props, (0 : Nat) ∈ pr.2) →
        (∃ m, get_symbols tokens = .ok m) ∧
        ((props.map Prod.fst).Nodup →
          ∀ pr ∈ props, symLookup tokens pr.1 =
            some (pr.2.takeWhile (· != 0)))) ∧
      (∀ pr ∈ props, (0 : Nat) ∉ pr.2 →
        get_symbols tokens = .error .malformedSymbolValue)) := by
  constructor
  · intro hok hns
    obtain ⟨l, hl⟩ := propsLoop_ok SYMBOLS_PATH tokens [] (by simpa using hok)
    have hl0 : l = [] :=
      propsLoop_nil SYMBOLS_PATH tokens [] l hl hns
        (fun x hx => absurd hx (List.not_mem_nil x))
    subst hl0
    simp only [get_symbols, get_props_of_node]
    rw [hl]
    rfl
  · intro props hp
    have hg : get_symbols tokens = symFold props [] := by
      simp only [get_symbols]
      rw [hp]
    constructor
    · intro hall
      obtain ⟨m, h1, _h2, h3⟩ := symFold_ok props hall []
      refine ⟨⟨m, by rw [hg, h1]⟩, ?_⟩
      intro hnd pr hpr
      simp only [symLookup]
      rw [hg, h1]
      exact h3 hnd pr hpr
    · intro pr hpr hz
      rw [hg]
      exact symFold_err props pr hpr hz []

/-- Witness for `get_symbols_correct`: on `symToksA` (no symbols node) the
table is empty; on `symToksB` the label `led0` resolves to `/soc/gpio@0`;
on `symToksC` (value without NUL) the pass fails. -/
theorem get_symbols_correct_witness :
    get_symbols symToksA = .ok [] ∧
    symLookup symToksB [108, 101, 100, 48] =
      some [47, 115, 111, 99, 47, 103, 112, 105, 111, 64, 48] ∧
    get_symbols symToksC = .error .malformedSymbolValue := by
  refine ⟨?_, ?_, ?_⟩
  · refine (get_symbols_correct symToksA).1 (by decide) ?_
    intro nm p h
    simp [symToksA] at h
    rcases h with ⟨-, rfl⟩ | ⟨-, rfl⟩ <;> decide
  · have h := ((get_symbols_correct symToksB).2
      [([108, 101, 100, 48],
        [47, 115, 111, 99, 47, 103, 112, 105, 111, 64, 48, 0])] rfl).1
      (by decide)
    exact h.2 (by decide)
      ([108, 101, 100, 48],
       [47, 115, 111, 99, 47, 103, 112, 105, 111, 64, 48, 0]) (by decide)
  · exact ((get_symbols_correct symToksC).2
      [([108, 101, 100, 48], [47, 115, 111, 99])] rfl).2
      ([108, 101, 100, 48], [47, 115, 111, 99]) (by decide) (by decide)
